import Mathlib

/-!
# Verification of the Heisenberg request-routing core

A shallow embedding of the Rust sources of the `heisenberg` crate
(pattern router, health probe, proxy forwarder, process supervisor and
static-asset resolution), together with theorems settling the frozen
claims about the crate's specification.

Rust strings are modelled as lists of Unicode scalar values (`Char`);
`str::len` (a byte count) is modelled by `byteLen`, the sum of the UTF-8
sizes of the characters.  Machine `usize` arithmetic is modelled on `Nat`
with explicit wrap-around modulo `2 ^ 64` where the source can overflow.
Fallible operations return `Except`; the process-manager and router
state are passed explicitly.
-/

deriving instance DecidableEq for Except

namespace Heisenberg

/-- A Rust `String`/`&str`, as its sequence of Unicode scalar values. -/
abbrev RStr := List Char

/-- Convenience: the character list of a Lean string literal. -/
def toRStr (s : String) : RStr := s.data

/-- Rust `str::len`: the UTF-8 byte length of a string. -/
def byteLen (s : RStr) : Nat := (s.map Char.utf8Size).sum

/-- Rust `HeisenbergError` (src/error.rs), the variants the core can produce.
Hint texts are abbreviated; claims depend only on the variant. -/
inductive HError
  | config (message hint : String)
  | fileNotFound (path : String) (hint : String)
  | noRouteMatch
  | process (message hint : String)
  | healthCheck (message hint : String)
  | proxyError (message : String)
deriving Repr, DecidableEq

/-- Is the error a configuration error (`HeisenbergError::Config`)? -/
def HError.isConfig : HError → Bool
  | .config _ _ => true
  | _ => false

/-- Rust `Mode` (src/core/mode.rs). -/
inductive Mode
  | Development
  | Production
deriving Repr, DecidableEq

/-- Rust `SpaRouteConfig` (src/core/config.rs). -/
structure SpaRouteConfig where
  pattern : RStr
  embed_dir : RStr
  dev_proxy_url : RStr
  dev_command : List RStr
  working_dir : RStr
  fallback_file : Option RStr
  open_browser : Bool
deriving Repr, DecidableEq

/-- Rust `PathMatcher` (src/core/router.rs). -/
inductive PathMatcher
  | Exact (s : RStr)
  | Prefix (p : RStr)
  | CatchAll
deriving Repr, DecidableEq

/-- Rust `PathMatcher::matches` (src/core/router.rs:225-234).  For the prefix
case the source tests `path.starts_with(prefix)`, byte-length equality,
and `path.chars().nth(prefix.len()) == Some('/')` — note that the index
passed to the character iterator is the *byte* length of the prefix. -/
def PathMatcher.matches : PathMatcher → RStr → Bool
  | .Exact exact, path => path == exact
  | .Prefix pre, path =>
      pre.isPrefixOf path &&
        (byteLen path == byteLen pre || path.get? (byteLen pre) == some '/')
  | .CatchAll, _ => true

/-- Rust `str::strip_suffix`: `some` of the remainder when `suffix` ends `s`. -/
def stripSuffix (s suffix : RStr) : Option RStr :=
  if suffix.isSuffixOf s then some (s.take (s.length - suffix.length)) else none

/-- The error value `compile_pattern` returns for an empty pattern. -/
def emptyPatternError : HError :=
  .config "Route pattern cannot be empty"
    "Use /* to match all paths; use /app/* to match paths starting with /app/"

/-- Rust `Router::compile_pattern` (src/core/router.rs:187-206). -/
def compile_pattern (pattern : RStr) : Except HError PathMatcher :=
  if pattern.isEmpty then
    .error emptyPatternError
  else if pattern == toRStr "/*" then
    .ok .CatchAll
  else
    match stripSuffix pattern (toRStr "/*") with
    | some pre => if pre.isEmpty then .ok .CatchAll else .ok (.Prefix pre)
    | none => .ok (.Exact pattern)

/-- Number of values of Rust's `usize` (the crate targets 64-bit). -/
def USIZE : Nat := 2 ^ 64

/-- Rust `Router::route_priority` (src/core/router.rs:208-221).  The source
computes `1000 - prefix.len()` on `usize`; in a release build this wraps
modulo `2 ^ 64`, which the `%` below makes explicit. -/
def route_priority (pattern : RStr) : Nat :=
  if pattern == toRStr "/*" then
    1000
  else
    match stripSuffix pattern (toRStr "/*") with
    | some pre => (USIZE + 1000 - byteLen pre) % USIZE
    | none => 0

/-- In a debug build `1000 - prefix.len()` panics when the subtraction
underflows; this predicate marks the patterns on which that happens. -/
def route_priority_underflows (pattern : RStr) : Bool :=
  if pattern == toRStr "/*" then
    false
  else
    match stripSuffix pattern (toRStr "/*") with
    | some pre => 1000 < byteLen pre
    | none => false

/-- Rust `Router::patterns_conflict` (src/core/router.rs:176-184): always
`false` in the source (reserved for future pattern kinds). -/
def patterns_conflict (_a _b : RStr) : Bool := false

/-- The duplicate-pattern error of `Router::validate_routes`. -/
def duplicatePatternError (pattern : RStr) : HError :=
  .config ("Duplicate route pattern: " ++ String.mk pattern)
    "Each route pattern must be unique"

/-- The conflicting-pattern error of `Router::validate_routes` (never
produced, since `patterns_conflict` is constantly `false`). -/
def conflictingPatternError (a b : RStr) : HError :=
  .config ("Conflicting route patterns: " ++ String.mk a ++ " and " ++ String.mk b)
    "More specific patterns should come first"

/-- The duplicate-detection loop of `Router::validate_routes`
(src/core/router.rs:150-158), with an explicit `seen` set. -/
def validateDup (seen : List RStr) : List SpaRouteConfig → Except HError Unit
  | [] => .ok ()
  | r :: rest =>
      if seen.contains r.pattern then .error (duplicatePatternError r.pattern)
      else validateDup (r.pattern :: seen) rest

/-- The pairwise conflict loop of `Router::validate_routes`
(src/core/router.rs:161-170). -/
def validateConflicts : List SpaRouteConfig → Except HError Unit
  | [] => .ok ()
  | a :: rest =>
      match rest.find? (fun b => patterns_conflict a.pattern b.pattern) with
      | some b => .error (conflictingPatternError a.pattern b.pattern)
      | none => validateConflicts rest

/-- Rust `Router::validate_routes` (src/core/router.rs:148-173). -/
def validate_routes (routes : List SpaRouteConfig) : Except HError Unit := do
  validateDup [] routes
  validateConflicts routes

/-- Rust `RouteEntry` (src/core/router.rs:21-26).  `priority` stores the
route's original declaration index (the `enumerate` index in the
source). -/
structure RouteEntry where
  matcher : PathMatcher
  config : SpaRouteConfig
  priority : Nat
deriving Repr, DecidableEq

/-- Sort key of the `sort_by` call in `Router::new`: the priority of the
pattern of the route (on the `(original_index, route)` pairs). -/
def entryKey (p : Nat × SpaRouteConfig) : Nat := route_priority p.2.pattern

/-- Insert `x` into a (key-sorted) list before the first element whose
key is not smaller — exactly where a stable sort puts it. -/
def stableInsert (key : α → Nat) (x : α) : List α → List α
  | [] => [x]
  | y :: ys => if key y < key x then y :: stableInsert key x ys else x :: y :: ys

/-- Stable insertion sort by a `Nat` key.  The Rust `slice::sort_by` is
a stable sort; for a total key order the output of any stable sort is
unique, so this models the sort in `Router::new` faithfully. -/
def insertionSort (key : α → Nat) : List α → List α
  | [] => []
  | x :: xs => stableInsert key x (insertionSort key xs)

/-- The entry-building loop of `Router::new` (src/core/router.rs:69-84):
compile each sorted route's pattern, stopping at the first failure. -/
def compileEntries : List (Nat × SpaRouteConfig) → Except HError (List RouteEntry)
  | [] => .ok []
  | (i, r) :: rest => do
      let m ← compile_pattern r.pattern
      let tail ← compileEntries rest
      .ok ({ matcher := m, config := r, priority := i } :: tail)

/-- Rust `Router` (src/core/router.rs:13-17).  The `HashMap` pattern cache is
modelled as an association list: lookup takes the first binding, insert
prepends. -/
structure Router where
  routes : List RouteEntry
  mode : Mode
  pattern_cache : List (RStr × Nat)
deriving Repr, DecidableEq

/-- Rust `Router::new` (src/core/router.rs:50-97). -/
def Router.new (routes : List SpaRouteConfig) (mode : Mode) : Except HError Router := do
  validate_routes routes
  let sorted := insertionSort entryKey routes.enum
  let entries ← compileEntries sorted
  .ok { routes := entries, mode := mode, pattern_cache := [] }

/-- Rust `HashMap::get` on the pattern cache. -/
def lookupCache (cache : List (RStr × Nat)) (path : RStr) : Option Nat :=
  (cache.find? (fun e => e.1 == path)).map (·.2)

/-- The `for (index, entry) in self.routes.iter().enumerate()` scan of
`Router::match_route`: the first matching entry with its index. -/
def scanRoutes (path : RStr) (idx : Nat) : List RouteEntry → Option (Nat × RouteEntry)
  | [] => none
  | e :: rest =>
      if e.matcher.matches path then some (idx, e) else scanRoutes path (idx + 1) rest

/-- Rust `Router::match_route` (src/core/router.rs:100-127).  Returns the
matched route (if any) and the router with its updated cache. -/
def Router.match_route (r : Router) (path : RStr) : Option SpaRouteConfig × Router :=
  match lookupCache r.pattern_cache path with
  | some i => ((r.routes.get? i).map (·.config), r)
  | none =>
      match scanRoutes path 0 r.routes with
      | some (i, e) => (some e.config, { r with pattern_cache := (path, i) :: r.pattern_cache })
      | none => (none, r)

/-- Rust `Router::route_handler` (src/core/router.rs:135-145). -/
inductive RouteHandler
  | Proxy (config : SpaRouteConfig)
  | StaticFiles (config : SpaRouteConfig)
deriving Repr, DecidableEq

/-- Rust `Router::route_handler`: tag the matched route by the mode. -/
def Router.route_handler (r : Router) (path : RStr) : Option RouteHandler × Router :=
  match r.match_route path with
  | (some config, r') =>
      match r.mode with
      | .Development => (some (.Proxy config), r')
      | .Production => (some (.StaticFiles config), r')
  | (none, r') => (none, r')

/-! ## Health probe (src/services/health.rs) -/

/-- The outcome of the single GET a health check performs, as seen by
`check_health`: a response (with its status code), a transport failure
(`reqwest::Error`), or the 3-second `tokio::time::timeout` elapsing. -/
inductive ProbeResult
  | response (status : Nat)
  | transportError (message : String)
  | timedOut
deriving Repr, DecidableEq

/-- Rust `http::StatusCode::is_success`: `200..=299`. -/
def isSuccessStatus (s : Nat) : Bool := 200 ≤ s && s < 300

/-- Rust `http::StatusCode::is_client_error`: `400..=499`. -/
def isClientErrorStatus (s : Nat) : Bool := 400 ≤ s && s < 500

/-- Rust `HealthChecker::check_health` (src/services/health.rs:33-55).  A 2xx
or 4xx response is healthy; any other status is a `HealthCheck` error; a
transport failure propagates through `?` as the `From<reqwest::Error>`
conversion, i.e. as `HeisenbergError::ProxyError`; a timeout is a
`HealthCheck` error. -/
def check_health (outcome : ProbeResult) : Except HError Unit :=
  match outcome with
  | .response s =>
      if isSuccessStatus s || isClientErrorStatus s then .ok ()
      else
        .error (.healthCheck ("Health check failed with status: " ++ toString s)
          "The dev server is running but returned an error")
  | .transportError m => .error (.proxyError m)
  | .timedOut =>
      .error (.healthCheck "Health check timed out"
        "The dev server may be starting up slowly")

/-- Rust `HealthChecker::is_healthy` (src/services/health.rs:28-30). -/
def is_healthy (outcome : ProbeResult) : Bool := (check_health outcome).isOk

/-- Rust `HealthChecker::wait_for_healthy` (src/services/health.rs:58-86):
poll `is_healthy` every 500ms until success or `max_wait` elapses.
`polls` is the sequence of poll outcomes that fit inside `max_wait`. -/
def wait_for_healthy (polls : List Bool) (max_wait : String) : Except HError Unit :=
  if polls.any (fun b => b) then .ok ()
  else
    .error (.healthCheck ("Server did not become healthy within " ++ max_wait)
      "The dev server is taking too long to start")

/-! ## Proxy forwarder (src/services/proxy.rs) -/

/-- A hyper `Response<String>`. -/
structure HttpResponse where
  status : Nat
  headers : List (String × String)
  body : String
deriving Repr, DecidableEq

/-- The outcome of the upstream `client.get(target_url).send()`:
either a response (whose `.text()` may itself fail, hence the optional
body, defaulted by `unwrap_or_default`) or a transport error. -/
inductive UpstreamResult
  | success (status : Nat) (body : Option String)
  | failure (message : String)
deriving Repr, DecidableEq

/-- Rust `ProxyService::create_error_page` (src/services/proxy.rs:71-116).
The HTML template with `target_url` and the error interpolated (format
braces written out; style/text abbreviated only in inessential ways). -/
def create_error_page (target_url : String) (errMsg : String) : String :=
  "<!DOCTYPE html>\n<html>\n<head>\n    <title>Development Server Unavailable</title>\n    <style>\n" ++
  "        body \x7b font-family: -apple-system, BlinkMacSystemFont, \x27Segoe UI\x27, Roboto, sans-serif; margin: 40px; \x7d\n" ++
  "        .container \x7b max-width: 600px; margin: 0 auto; \x7d\n" ++
  "        .error \x7b background: #fee; border: 1px solid #fcc; padding: 20px; border-radius: 8px; \x7d\n" ++
  "        .info \x7b background: #eff; border: 1px solid #cdf; padding: 20px; border-radius: 8px; margin-top: 20px; \x7d\n" ++
  "    </style>\n</head>\n<body>\n    <div class=\"container\">\n        <div class=\"error\">\n" ++
  "            <h1>🚫 Development Server Unavailable</h1>\n" ++
  "            <p><strong>Could not connect to:</strong> <code>" ++ target_url ++ "</code></p>\n" ++
  "            <p><strong>Error:</strong> " ++ errMsg ++ "</p>\n        </div>\n\n        <div class=\"info\">\n" ++
  "            <h2>💡 Troubleshooting</h2>\n" ++
  "            <p>The frontend development server is not responding. Here is what you can try:</p>\n" ++
  "            <ul>\n                <li><strong>Check if the dev server is running</strong></li>\n" ++
  "                <li><strong>Verify the URL:</strong> Make sure <code>" ++ target_url ++ "</code> is correct</li>\n" ++
  "                <li><strong>Start the dev server manually</strong></li>\n" ++
  "            </ul>\n" ++
  "            <p><em>This page will automatically work once the development server is available.</em></p>\n" ++
  "        </div>\n    </div>\n\n    <script>\n" ++
  "        setTimeout(() => \x7b window.location.reload(); \x7d, 3000);\n" ++
  "    </script>\n</body>\n</html>"

/-- Rust `ProxyService::create_unavailable_error_page`
(src/services/proxy.rs:119-148). -/
def create_unavailable_error_page (target_url : String) : String :=
  "<!DOCTYPE html>\n<html>\n<head>\n    <title>Development Server Unavailable</title>\n    <style>\n" ++
  "        body \x7b font-family: -apple-system, BlinkMacSystemFont, \x27Segoe UI\x27, Roboto, sans-serif; margin: 40px; \x7d\n" ++
  "        .container \x7b max-width: 600px; margin: 0 auto; \x7d\n" ++
  "        .error \x7b background: #fee; border: 1px solid #fcc; padding: 20px; border-radius: 8px; \x7d\n" ++
  "    </style>\n</head>\n<body>\n    <div class=\"container\">\n        <div class=\"error\">\n" ++
  "            <h1>⏳ Development Server Starting</h1>\n" ++
  "            <p>The development server at <code>" ++ target_url ++ "</code> is not ready yet.</p>\n" ++
  "            <p><em>This page will refresh automatically...</em></p>\n" ++
  "        </div>\n    </div>\n\n    <script>\n" ++
  "        setTimeout(() => \x7b window.location.reload(); \x7d, 2000);\n" ++
  "    </script>\n</body>\n</html>"

/-- Rust `ProxyService::proxy_request` (src/services/proxy.rs:36-68).  The
pre-flight health outcome and the upstream GET outcome are explicit
inputs standing for the two awaited network effects. -/
def proxy_request (target_url _path : String)
    (health : ProbeResult) (upstream : UpstreamResult) : Except HError HttpResponse :=
  if !(is_healthy health) then
    .ok { status := 503, headers := [("content-type", "text/html")],
          body := create_unavailable_error_page target_url }
  else
    match upstream with
    | .success status body =>
        .ok { status := status, headers := [("content-type", "text/html")],
              body := body.getD "" }
    | .failure e =>
        .ok { status := 503, headers := [("content-type", "text/html")],
              body := create_error_page target_url e }

/-! ## Actix adapter (src/adapters/actix.rs) -/

/-- Rust `path_matches` (src/adapters/actix.rs:67-75).  Note: the prefix case
checks only `path.starts_with(prefix)` — no `/`-boundary test. -/
def path_matches (pattern path : RStr) : Bool :=
  if pattern == toRStr "/*" then
    true
  else
    match stripSuffix pattern (toRStr "/*") with
    | some pre => pre.isPrefixOf path
    | none => pattern == path

/-- Rust `str::strip_prefix('/')` with `unwrap_or(path)`: drop one leading
slash if present. -/
def stripLeadingSlash : RStr → RStr
  | '/' :: rest => rest
  | p => p

/-- The path normalization at the top of `serve_embedded_asset`
(src/adapters/actix.rs:125-129): root or empty maps to the fallback
file (default `index.html`); otherwise the leading slash is dropped. -/
def requestedFile (route : SpaRouteConfig) (path : RStr) : RStr :=
  if path == toRStr "/" || path.isEmpty then
    route.fallback_file.getD (toRStr "index.html")
  else
    stripLeadingSlash path

/-- Rust `PathBuf::join` for the relative file names produced above. -/
def pathJoin (dir file : RStr) : RStr := dir ++ '/' :: file

/-- Rust `Path::file_name`: the component after the last separator. -/
def fileName (p : RStr) : RStr := (p.reverse.takeWhile (fun c => c != '/')).reverse

/-- Rust `Path::extension`: the part of the file name after its last dot;
none when there is no dot or when the only dot leads the name. -/
def extension (p : RStr) : Option RStr :=
  let f := fileName p
  let revExt := f.reverse.takeWhile (fun c => c != '.')
  if revExt.length < f.length then
    if (f.take (f.length - revExt.length - 1)).isEmpty then none
    else some revExt.reverse
  else none

/-- The extension → content-type table of `serve_embedded_asset`
(src/adapters/actix.rs:138-152). -/
def contentTypeFor (full_path : RStr) : String :=
  match extension full_path with
  | some e =>
      if e == toRStr "html" then "text/html; charset=utf-8"
      else if e == toRStr "css" then "text/css; charset=utf-8"
      else if e == toRStr "js" then "application/javascript; charset=utf-8"
      else if e == toRStr "json" then "application/json; charset=utf-8"
      else if e == toRStr "png" then "image/png"
      else if e == toRStr "jpg" || e == toRStr "jpeg" then "image/jpeg"
      else if e == toRStr "gif" then "image/gif"
      else if e == toRStr "svg" then "image/svg+xml"
      else if e == toRStr "ico" then "image/x-icon"
      else if e == toRStr "woff" then "font/woff"
      else if e == toRStr "woff2" then "font/woff2"
      else if e == toRStr "ttf" then "font/ttf"
      else "application/octet-stream"
  | none => "application/octet-stream"

/-- Rust `actix_web::error::ErrorNotFound`, as far as the adapter uses it. -/
inductive ActixError
  | notFound (message : String)
deriving Repr, DecidableEq

/-- Rust `serve_embedded_asset` (src/adapters/actix.rs:120-173).  The file
system read (`tokio::fs::read`) is an explicit input `fs` mapping a full
path to its contents when the file exists. -/
def serve_embedded_asset (fs : RStr → Option String) (path : RStr)
    (route : SpaRouteConfig) : Except ActixError HttpResponse :=
  let full_path := pathJoin route.embed_dir (requestedFile route path)
  match fs full_path with
  | some contents =>
      .ok { status := 200, headers := [("content-type", contentTypeFor full_path)],
            body := contents }
  | none =>
      match route.fallback_file with
      | some fallback =>
          match fs (pathJoin route.embed_dir fallback) with
          | some contents =>
              .ok { status := 200, headers := [("content-type", "text/html; charset=utf-8")],
                    body := contents }
          | none => .error (.notFound "File not found")
      | none => .error (.notFound "File not found")

/-! ## Process supervisor (src/services/process.rs) -/

/-- The state of `ProcessManager`: the `route_id → ProcessHandle` map (the
child handle abstracted to an opaque id; the `startup_time` field is
dropped), plus the set of children the manager has sent a kill signal —
recorded so that "the child was never killed" is expressible. -/
structure ProcessManagerState where
  processes : List (String × Nat)
  killed : List Nat
deriving Repr, DecidableEq

/-- Rust `HashMap::get` on the process map. -/
def lookupProcess (m : List (String × Nat)) (k : String) : Option Nat :=
  (m.find? (fun e => e.1 == k)).map (·.2)

/-- Rust `HashMap::insert` on the process map. -/
def insertProcess (m : List (String × Nat)) (k : String) (c : Nat) :
    List (String × Nat) :=
  (k, c) :: m.filter (fun e => e.1 != k)

/-- Rust `HashMap::remove` on the process map. -/
def removeProcess (m : List (String × Nat)) (k : String) : List (String × Nat) :=
  m.filter (fun e => e.1 != k)

/-- Rust `ProcessManager::start_process` (src/services/process.rs:33-104).
`spawn` is the outcome of `Command::spawn`; `polls` the health polls
falling within the 30-second startup window.  Browser opening is
fire-and-forget and does not touch the state. -/
def start_process (st : ProcessManagerState) (route_id : String)
    (command : List String) (spawn : Except String Nat) (polls : List Bool)
    (_open_browser_flag : Bool) : Except HError Unit × ProcessManagerState :=
  if command.isEmpty then
    (.error (.process "Empty command provided" "Specify a dev command"), st)
  else
    match spawn with
    | .error e =>
        (.error (.process ("Failed to start process: " ++ e) "Ensure the command exists"), st)
    | .ok child =>
        let st' : ProcessManagerState :=
          { st with processes := insertProcess st.processes route_id child }
        match wait_for_healthy polls "30s" with
        | .error e => (.error e, st')
        | .ok _ => (.ok (), st')

/-- Rust `ProcessManager::stop_process` (src/services/process.rs:134-143):
kill and reap the tracked child, if any; always `Ok`. -/
def stop_process (st : ProcessManagerState) (route_id : String) :
    Except HError Unit × ProcessManagerState :=
  match lookupProcess st.processes route_id with
  | some child =>
      (.ok (), { processes := removeProcess st.processes route_id,
                 killed := child :: st.killed })
  | none => (.ok (), st)

/-- Rust `ProcessManager::stop_all_processes` (src/services/process.rs:146-155). -/
def stop_all_processes (st : ProcessManagerState) :
    Except HError Unit × ProcessManagerState :=
  (.ok (), { processes := [], killed := st.processes.map (·.2) ++ st.killed })

/-! ## Static file service stub (src/services/static_files.rs) -/

/-- Rust `StaticFileService::serve_file` (src/services/static_files.rs:21-36),
the placeholder service (unused by the adapters). -/
def serve_file (_fallback_file : Option RStr) (path : RStr) :
    Except HError HttpResponse :=
  if path == toRStr "/" || path == toRStr "/index.html" then
    .ok { status := 200, headers := [("content-type", "text/html")],
          body := "<html><body><h1>Heisenberg Static Server</h1></body></html>" }
  else
    .error (.fileNotFound (String.mk path) "Check if the file exists in the embedded assets")

/-! ## Helper lemmas -/

theorem byteLen_append (a b : RStr) : byteLen (a ++ b) = byteLen a + byteLen b := by
  simp [byteLen]

theorem byteLen_eq_zero {s : RStr} : byteLen s = 0 ↔ s = [] := by
  cases s with
  | nil => simp [byteLen]
  | cons c t =>
      simp only [byteLen, List.map_cons, List.sum_cons]
      constructor
      · intro h
        have := Char.utf8Size_pos c
        omega
      · intro h
        exact absurd h (by simp)

theorem byteLen_of_ascii {p : RStr} (h : ∀ c ∈ p, Char.utf8Size c = 1) :
    byteLen p = p.length := by
  induction p with
  | nil => simp [byteLen]
  | cons c t ih =>
      simp only [byteLen, List.map_cons, List.sum_cons, List.length_cons]
      rw [h c (by simp), byteLen] at *
      have := ih (fun x hx => h x (by simp [hx]))
      omega

theorem infix_append_left {x a : List Char} (b : List Char) (h : x <:+: a) :
    x <:+: a ++ b := by
  obtain ⟨s, t, rfl⟩ := h
  exact ⟨s, t ++ b, by simp⟩

/-! ## C2: prefix matching at path boundaries -/

/-- C2 (amended): for a prefix `p` of single-byte (ASCII) characters,
the compiled Prefix matcher matches `s` iff `s` starts with `p` and
either the lengths are equal or the character immediately after the
prefix is a slash; and pattern `/admin/*` compiles to `Prefix "/admin"`,
which matches `/admin`, `/admin/` and `/admin/x` but not
`/administration`.  (For non-ASCII prefixes the source feeds the byte
length of the prefix to a character-indexed iterator, so the boundary
character it inspects is not the one immediately after the prefix.) -/
theorem prefix_matcher_boundary (pre path : RStr)
    (hascii : ∀ c ∈ pre, Char.utf8Size c = 1) :
    ((PathMatcher.Prefix pre).matches path = true ↔
      (pre <+: path ∧ (path.length = pre.length ∨ path.get? pre.length = some '/'))) ∧
    compile_pattern (toRStr "/admin/*") = .ok (.Prefix (toRStr "/admin")) ∧
    (PathMatcher.Prefix (toRStr "/admin")).matches (toRStr "/admin") = true ∧
    (PathMatcher.Prefix (toRStr "/admin")).matches (toRStr "/admin/") = true ∧
    (PathMatcher.Prefix (toRStr "/admin")).matches (toRStr "/admin/x") = true ∧
    (PathMatcher.Prefix (toRStr "/admin")).matches (toRStr "/administration") = false := by
  refine ⟨?_, by decide, by decide, by decide, by decide, by decide⟩
  have hbp : byteLen pre = pre.length := byteLen_of_ascii hascii
  simp only [PathMatcher.matches, Bool.and_eq_true, Bool.or_eq_true, beq_iff_eq,
    List.isPrefixOf_iff_prefix, hbp]
  constructor
  · rintro ⟨hpre, hrest⟩
    refine ⟨hpre, ?_⟩
    obtain ⟨rest, rfl⟩ := hpre
    rcases hrest with h | h
    · left
      rw [byteLen_append, hbp] at h
      have hr : rest = [] := byteLen_eq_zero.mp (by omega)
      simp [hr]
    · right; exact h
  · rintro ⟨hpre, hrest⟩
    refine ⟨hpre, ?_⟩
    obtain ⟨rest, rfl⟩ := hpre
    rcases hrest with h | h
    · left
      simp only [List.length_append] at h
      have hr : rest = [] := List.eq_nil_of_length_eq_zero (by omega)
      rw [byteLen_append, hbp]
      simp [hr, byteLen]
    · right; exact h

/-- C2 counterexample: for the non-ASCII prefix `"/é"` and the path
`"/é/x"`, the path starts with the prefix and the character immediately
after the prefix is `/` (and no length reading makes the lengths equal),
yet the compiled matcher rejects the path: the source indexes the
character iterator with the prefix's byte length. -/
theorem prefix_matcher_boundary_cex :
    (toRStr "/é") <+: (toRStr "/é/x") ∧
    (toRStr "/é/x").get? (toRStr "/é").length = some '/' ∧
    (toRStr "/é/x").length ≠ (toRStr "/é").length ∧
    byteLen (toRStr "/é/x") ≠ byteLen (toRStr "/é") ∧
    (PathMatcher.Prefix (toRStr "/é")).matches (toRStr "/é/x") = false := by
  refine ⟨⟨toRStr "/x", by decide⟩, by decide, by decide, by decide, by decide⟩

/-- Witness for `prefix_matcher_boundary`: instantiated at the ASCII
prefix `"/admin"` and path `"/admin/x"`. -/
theorem prefix_matcher_boundary_witness :
    (PathMatcher.Prefix (toRStr "/admin")).matches (toRStr "/admin/x") = true := by
  have h := (prefix_matcher_boundary (toRStr "/admin") (toRStr "/admin/x")
    (by decide)).1
  exact h.mpr (by decide)

/-! ## C5: health classification -/

/-- Is the error a `HeisenbergError::HealthCheck`? -/
def HError.isHealthCheck : HError → Bool
  | .healthCheck _ _ => true
  | _ => false

/-- C5 (amended): a response with a 2xx or 4xx status is classified
healthy (in particular 404 is healthy); a response with any other
status yields a `HealthCheck` error; a transport failure yields an
error — the `reqwest` error converted to `ProxyError`, not a
`HealthCheck` error. -/
theorem health_classification (s : Nat) (m : String) :
    ((200 ≤ s ∧ s < 300) ∨ (400 ≤ s ∧ s < 500) →
      check_health (.response s) = .ok () ∧ is_healthy (.response s) = true) ∧
    (¬((200 ≤ s ∧ s < 300) ∨ (400 ≤ s ∧ s < 500)) →
      ∃ e, check_health (.response s) = .error e ∧ e.isHealthCheck = true) ∧
    check_health (.transportError m) = .error (.proxyError m) ∧
    check_health (.response 404) = .ok () ∧
    is_healthy (.response 404) = true := by
  refine ⟨?_, ?_, rfl, by decide, by decide⟩
  · intro h
    have hcond : (isSuccessStatus s || isClientErrorStatus s) = true := by
      simp only [isSuccessStatus, isClientErrorStatus, Bool.or_eq_true, Bool.and_eq_true,
        decide_eq_true_eq]
      omega
    simp [check_health, hcond, is_healthy, Except.isOk, Except.toBool]
  · intro h
    have hcond : (isSuccessStatus s || isClientErrorStatus s) = false := by
      by_contra hb
      have hbt : (isSuccessStatus s || isClientErrorStatus s) = true := by
        revert hb; cases (isSuccessStatus s || isClientErrorStatus s) <;> simp
      have hbt' : isSuccessStatus s = true ∨ isClientErrorStatus s = true := by
        simpa using hbt
      rcases hbt' with ht | ht
      · exact h (Or.inl (by
          simpa [isSuccessStatus, Bool.and_eq_true, decide_eq_true_eq] using ht))
      · exact h (Or.inr (by
          simpa [isClientErrorStatus, Bool.and_eq_true, decide_eq_true_eq] using ht))
    refine ⟨HError.healthCheck ("Health check failed with status: " ++ toString s)
      "The dev server is running but returned an error", ?_, rfl⟩
    simp [check_health, hcond]

/-- C5 counterexample: a URL answering HTTP 500 — a response, hence
"reachable" under the claim — is classified unhealthy by the source
(`is_success() || is_client_error()` excludes 5xx), and a transport
failure is converted to `ProxyError`, not to the health-check error
variant. -/
theorem health_classification_cex :
    is_healthy (.response 500) = false ∧
    (check_health (.response 500)).isOk = false ∧
    check_health (.transportError "connection refused") =
      .error (.proxyError "connection refused") ∧
    (HError.proxyError "connection refused").isHealthCheck = false := by
  refine ⟨by decide, by decide, rfl, by decide⟩

/-- Witness for `health_classification`: a 404 response is healthy and a
503 response is classified by a `HealthCheck` error. -/
theorem health_classification_witness :
    check_health (.response 404) = .ok () ∧
    ∃ e, check_health (.response 503) = .error e ∧ e.isHealthCheck = true := by
  refine ⟨((health_classification 404 "x").1 (by omega)).1, ?_⟩
  exact (health_classification 503 "x").2.1 (by omega)

/-! ## C9: adapter matching vs. core matching -/

/-- C9 (amended): the actix adapter's `path_matches` agrees with the
matcher the router compiles from the same pattern for Exact and
CatchAll patterns; for Prefix patterns the adapter checks only
`starts_with` — every path the core matcher accepts is accepted by the
adapter, but the adapter also accepts paths that continue the prefix
without a `/` boundary. -/
theorem adapter_matcher_agreement (pattern path : RStr) :
    (∀ s, compile_pattern pattern = .ok (.Exact s) →
      path_matches pattern path = (PathMatcher.Exact s).matches path) ∧
    (compile_pattern pattern = .ok .CatchAll →
      path_matches pattern path = true ∧ PathMatcher.CatchAll.matches path = true) ∧
    (∀ pre, compile_pattern pattern = .ok (.Prefix pre) →
      path_matches pattern path = pre.isPrefixOf path ∧
      ((PathMatcher.Prefix pre).matches path = true → path_matches pattern path = true)) := by
  cases hempty : pattern.isEmpty with
  | true => refine ⟨?_, ?_, ?_⟩ <;> intros <;> simp_all [compile_pattern]
  | false =>
  cases hca : pattern == toRStr "/*" with
  | true =>
      refine ⟨?_, ?_, ?_⟩
      · intro s h
        simp [compile_pattern, hempty, hca] at h
      · intro _
        simp [path_matches, hca, PathMatcher.matches]
      · intro pre h
        simp [compile_pattern, hempty, hca] at h
  | false =>
  cases hstrip : stripSuffix pattern (toRStr "/*") with
  | some pre =>
      refine ⟨?_, ?_, ?_⟩
      · intro s h
        simp [compile_pattern, hempty, hca, hstrip] at h
        by_cases hpre : pre = [] <;> simp [hpre] at h
      · intro h
        refine ⟨?_, rfl⟩
        simp only [path_matches, hca, Bool.false_eq_true, if_false, hstrip]
        -- with `pattern ≠ "/*"` excluded, the compiled CatchAll can only
        -- come from an empty stripped prefix, for which `starts_with` holds
        by_cases hpre : pre = []
        · subst hpre
          simp [ List.isPrefixOf_iff_prefix]
        · simp [compile_pattern, hempty, hca, hstrip, hpre] at h
      · intro pre' h
        simp [compile_pattern, hempty, hca, hstrip] at h
        by_cases hpre : pre = [] <;> simp [hpre] at h
        subst h
        refine ⟨by simp [path_matches, hca, hstrip], ?_⟩
        intro hm
        simp only [PathMatcher.matches, Bool.and_eq_true] at hm
        simp [path_matches, hca, hstrip, hm.1]
  | none =>
      refine ⟨?_, ?_, ?_⟩
      · intro s h
        simp [compile_pattern, hempty, hca, hstrip] at h
        subst h
        simp only [path_matches, hca, Bool.false_eq_true, if_false, hstrip,
          PathMatcher.matches]
        by_cases hpq : pattern = path
        · subst hpq; simp
        · have h1 : (pattern == path) = false := beq_eq_false_iff_ne.mpr hpq
          have h2 : (path == pattern) = false := beq_eq_false_iff_ne.mpr (Ne.symm hpq)
          simp [h1, h2]
      · intro h
        simp [compile_pattern, hempty, hca, hstrip] at h
      · intro pre h
        simp [compile_pattern, hempty, hca, hstrip] at h

/-- C9 counterexample: pattern `/admin/*` compiles to `Prefix "/admin"`,
which rejects `/administration`; the adapter's `path_matches` accepts
it, so the adapter's route selection disagrees with the core router. -/
theorem adapter_matcher_agreement_cex :
    compile_pattern (toRStr "/admin/*") = .ok (.Prefix (toRStr "/admin")) ∧
    path_matches (toRStr "/admin/*") (toRStr "/administration") = true ∧
    (PathMatcher.Prefix (toRStr "/admin")).matches (toRStr "/administration") = false := by
  refine ⟨by decide, by decide, by decide⟩

/-- Witness for `adapter_matcher_agreement`: instantiated at pattern
`/app/*` and path `/app/x`. -/
theorem adapter_matcher_agreement_witness :
    path_matches (toRStr "/app/*") (toRStr "/app/x") = true := by
  have h := (adapter_matcher_agreement (toRStr "/app/*") (toRStr "/app/x")).2.2
    (toRStr "/app") (by decide)
  exact h.2 (by decide)

/-! ## C4: the proxy always serves a response -/

theorem unavail_page_marker (t : String) :
    "Unavailable".data <:+: (create_unavailable_error_page t).data := by
  unfold create_unavailable_error_page
  simp only [String.data_append, List.append_assoc]
  exact infix_append_left _ (by decide)

theorem error_page_marker (t e : String) :
    "Unavailable".data <:+: (create_error_page t e).data := by
  unfold create_error_page
  simp only [String.data_append, List.append_assoc]
  exact infix_append_left _ (by decide)

/-- C4 (confirmed): `proxy_request` never propagates a transport or
health failure — for every health outcome and upstream outcome it
returns `Ok` with a servable response, and whenever the pre-flight
check is unhealthy or the upstream GET fails, that response has status
503 and its HTML body contains the marker "Unavailable". -/
theorem proxy_always_servable (target_url path : String)
    (health : ProbeResult) (upstream : UpstreamResult) :
    (∃ resp, proxy_request target_url path health upstream = .ok resp) ∧
    (is_healthy health = false →
      ∃ resp, proxy_request target_url path health upstream = .ok resp ∧
        resp.status = 503 ∧ "Unavailable".data <:+: resp.body.data) ∧
    (∀ e, upstream = .failure e →
      ∃ resp, proxy_request target_url path health upstream = .ok resp ∧
        resp.status = 503 ∧ "Unavailable".data <:+: resp.body.data) := by
  cases hh : is_healthy health with
  | false =>
      have hrun : proxy_request target_url path health upstream =
          .ok { status := 503, headers := [("content-type", "text/html")],
                body := create_unavailable_error_page target_url } := by
        simp [proxy_request, hh]
      refine ⟨⟨_, hrun⟩, ?_, ?_⟩
      · intro _
        exact ⟨_, hrun, rfl, unavail_page_marker target_url⟩
      · intro e _
        exact ⟨_, hrun, rfl, unavail_page_marker target_url⟩
  | true =>
      cases upstream with
      | success status body =>
          have hrun : proxy_request target_url path health (.success status body) =
              .ok { status := status, headers := [("content-type", "text/html")],
                    body := body.getD "" } := by
            simp [proxy_request, hh]
          refine ⟨⟨_, hrun⟩, by simp [hh], ?_⟩
          intro e he
          exact absurd he (by simp)
      | failure e' =>
          have hrun : proxy_request target_url path health (.failure e') =
              .ok { status := 503, headers := [("content-type", "text/html")],
                    body := create_error_page target_url e' } := by
            simp [proxy_request, hh]
          refine ⟨⟨_, hrun⟩, by simp [hh], ?_⟩
          intro e he
          have he' : e' = e := by simpa using he
          subst he'
          exact ⟨_, hrun, rfl, error_page_marker target_url e'⟩

/-- Witness for `proxy_always_servable`: a timed-out pre-flight check
together with a failing upstream GET still yields a 503 page with the
"Unavailable" marker. -/
theorem proxy_always_servable_witness :
    ∃ resp, proxy_request "http://localhost:3000" "/x" .timedOut
        (.failure "connection refused") = .ok resp ∧
      resp.status = 503 ∧ "Unavailable".data <:+: resp.body.data :=
  (proxy_always_servable "http://localhost:3000" "/x" .timedOut
    (.failure "connection refused")).2.1 (by decide)

/-! ## C6: static asset resolution with SPA fallback -/

/-- C6 (confirmed): static asset resolution normalizes root/empty paths
to the configured fallback file (default `index.html`); when the
resolved file is absent and a fallback is configured, the fallback's
content is served with an HTML content type; when the fallback is also
absent, or none is configured, a not-found error results. -/
theorem static_fallback_resolution (fs : RStr → Option String) (path : RStr)
    (route : SpaRouteConfig) :
    ((path = toRStr "/" ∨ path = []) →
      serve_embedded_asset fs path route =
        serve_embedded_asset fs ('/' :: route.fallback_file.getD (toRStr "index.html")) route) ∧
    (∀ fb, route.fallback_file = some fb →
      fs (pathJoin route.embed_dir (requestedFile route path)) = none →
      (∀ c, fs (pathJoin route.embed_dir fb) = some c →
        serve_embedded_asset fs path route =
          .ok { status := 200, headers := [("content-type", "text/html; charset=utf-8")],
                body := c }) ∧
      (fs (pathJoin route.embed_dir fb) = none →
        serve_embedded_asset fs path route = .error (.notFound "File not found"))) ∧
    (route.fallback_file = none →
      fs (pathJoin route.embed_dir (requestedFile route path)) = none →
      serve_embedded_asset fs path route = .error (.notFound "File not found")) := by
  refine ⟨?_, ?_, ?_⟩
  · intro h
    have hreq : requestedFile route path =
        requestedFile route ('/' :: route.fallback_file.getD (toRStr "index.html")) := by
      have hl : requestedFile route path = route.fallback_file.getD (toRStr "index.html") := by
        rcases h with h | h <;> subst h <;> simp [requestedFile, toRStr]
      rw [hl]
      cases hfb : route.fallback_file with
      | none => simp [requestedFile, toRStr, stripLeadingSlash]
      | some fb =>
          cases fb with
          | nil => simp [requestedFile, toRStr, hfb]
          | cons c t =>
              simp only [requestedFile, Option.getD_some, hfb]
              have h1 : (('/' :: c :: t) == toRStr "/") = false := by
                simp [toRStr]
              simp [h1, stripLeadingSlash]
    simp only [serve_embedded_asset]
    rw [hreq]
  · intro fb hfb hprim
    constructor
    · intro c hc
      simp [serve_embedded_asset, hprim, hfb, hc]
    · intro hc
      simp [serve_embedded_asset, hprim, hfb, hc]
  · intro hfb hprim
    simp [serve_embedded_asset, hprim, hfb]

/-- A demonstration route and file system for the static-resolution
witness: only `./dist/index.html` exists. -/
def demoStaticRoute : SpaRouteConfig :=
  { pattern := toRStr "/*", embed_dir := toRStr "./dist",
    dev_proxy_url := toRStr "http://localhost:3000",
    dev_command := [toRStr "npm", toRStr "run", toRStr "dev"],
    working_dir := toRStr ".", fallback_file := some (toRStr "index.html"),
    open_browser := false }

/-- The demonstration file system: only the fallback file exists. -/
def demoFs (p : RStr) : Option String :=
  if p == toRStr "./dist/index.html" then some "<h1>app</h1>" else none

/-- Witness for `static_fallback_resolution`: a missing deep path with
fallback `index.html` configured returns the fallback content with HTML
content type. -/
theorem static_fallback_resolution_witness :
    serve_embedded_asset demoFs (toRStr "/missing/deep") demoStaticRoute =
      .ok { status := 200, headers := [("content-type", "text/html; charset=utf-8")],
            body := "<h1>app</h1>" } :=
  ((static_fallback_resolution demoFs (toRStr "/missing/deep") demoStaticRoute).2.1
    (toRStr "index.html") rfl (by decide)).1 "<h1>app</h1>" (by decide)

/-! ## C7: a health timeout leaves the spawned process tracked -/

/-- C7 (confirmed): when `start_process` has spawned the child and the
health wait then times out (every poll within the window is negative),
it returns a `HealthCheck` error while the child stays in the registry
under the route id and no kill was issued. -/
theorem start_timeout_keeps_process (st : ProcessManagerState) (route_id : String)
    (command : List String) (polls : List Bool) (flag : Bool) (child : Nat)
    (hcmd : command ≠ []) (hpolls : ∀ b ∈ polls, b = false) :
    ∃ st', start_process st route_id command (.ok child) polls flag =
        (.error (.healthCheck "Server did not become healthy within 30s"
          "The dev server is taking too long to start"), st') ∧
      lookupProcess st'.processes route_id = some child ∧
      st'.killed = st.killed := by
  have hempty : command.isEmpty = false := by
    cases command with
    | nil => exact absurd rfl hcmd
    | cons a t => rfl
  have hany : polls.any (fun b => b) = false := by
    induction polls with
    | nil => rfl
    | cons b t ih =>
        have hb := hpolls b (by simp)
        simp only [List.any_cons, hb, Bool.false_or]
        exact ih (fun x hx => hpolls x (by simp [hx]))
  have hwait : wait_for_healthy polls "30s" =
      .error (.healthCheck "Server did not become healthy within 30s"
        "The dev server is taking too long to start") := by
    simp [wait_for_healthy, hany]
  refine ⟨{ st with processes := insertProcess st.processes route_id child }, ?_, ?_, rfl⟩
  · simp [start_process, hempty, hwait]
  · simp [lookupProcess, insertProcess]

/-- Witness for `start_timeout_keeps_process`: starting `npm run dev`
for route "app" with a never-healthy dev URL returns the timeout error
and keeps the child registered. -/
theorem start_timeout_keeps_process_witness :
    ∃ st', start_process { processes := [], killed := [] } "app"
        [ "npm", "run", "dev" ] (.ok 42) [false, false, false] false =
        (.error (.healthCheck "Server did not become healthy within 30s"
          "The dev server is taking too long to start"), st') ∧
      lookupProcess st'.processes "app" = some 42 ∧
      st'.killed = ([] : List Nat) :=
  start_timeout_keeps_process { processes := [], killed := [] } "app"
    [ "npm", "run", "dev" ] [false, false, false] false 42 (by simp) (by decide)

/-! ## Validation and compilation lemmas -/

theorem find?_const_false (l : List α) : l.find? (fun _ => false) = none := by
  simp [List.find?_eq_none]

theorem validateConflicts_ok (l : List SpaRouteConfig) : validateConflicts l = .ok () := by
  induction l with
  | nil => rfl
  | cons a rest ih =>
      simp only [validateConflicts, patterns_conflict, find?_const_false]
      exact ih

theorem except_bind_ok (a : α) (f : α → Except ε β) :
    (Except.ok a >>= f) = f a := rfl

theorem except_bind_error (e : ε) (f : α → Except ε β) :
    ((Except.error e : Except ε α) >>= f) = Except.error e := rfl

theorem validateDup_shape (l : List SpaRouteConfig) :
    ∀ seen, validateDup seen l = .ok () ∨
      ∃ p, validateDup seen l = .error (duplicatePatternError p) := by
  induction l with
  | nil => intro seen; exact Or.inl rfl
  | cons r rest ih =>
      intro seen
      cases hc : seen.contains r.pattern with
      | true => exact Or.inr ⟨r.pattern, by simp only [validateDup, hc]; simp⟩
      | false =>
          rcases ih (r.pattern :: seen) with h | ⟨p, h⟩
          · exact Or.inl (by simp only [validateDup, hc]; simpa using h)
          · exact Or.inr ⟨p, by simp only [validateDup, hc]; simpa using h⟩

theorem validateDup_ok (l : List SpaRouteConfig) :
    ∀ seen, (l.map (·.pattern)).Nodup → (∀ p ∈ l.map (·.pattern), p ∉ seen) →
      validateDup seen l = .ok () := by
  induction l with
  | nil => intro seen _ _; rfl
  | cons r rest ih =>
      intro seen hnd hni
      have hmem : r.pattern ∉ seen := hni r.pattern (by simp)
      have hc : seen.contains r.pattern = false := by
        cases h : seen.contains r.pattern
        · rfl
        · exact absurd (List.elem_iff.mp h) hmem
      have htail : validateDup (r.pattern :: seen) rest = .ok () := by
        simp only [List.map_cons, List.nodup_cons] at hnd
        refine ih (r.pattern :: seen) hnd.2 ?_
        intro p hp
        simp only [List.mem_cons]
        rintro (h | h)
        · exact hnd.1 (h ▸ hp)
        · exact hni p (by simp [hp]) h
      simp only [validateDup, hc]
      simpa using htail

theorem validateDup_error_of_seen (l : List SpaRouteConfig) :
    ∀ seen, (∃ r ∈ l, r.pattern ∈ seen) →
      ∃ p, validateDup seen l = .error (duplicatePatternError p) := by
  induction l with
  | nil => rintro seen ⟨r, hr, -⟩; exact absurd hr (by simp)
  | cons r rest ih =>
      intro seen hex
      cases hc : seen.contains r.pattern with
      | true => exact ⟨r.pattern, by simp only [validateDup, hc]; simp⟩
      | false =>
          have hrmem : r.pattern ∉ seen := by
            intro hmem
            have ht : seen.contains r.pattern = true := List.elem_iff.mpr hmem
            rw [ht] at hc
            cases hc
          obtain ⟨r', hr', hs⟩ := hex
          have hr'' : r' ∈ rest := by
            rcases List.mem_cons.mp hr' with h | h
            · exact absurd (h ▸ hs) hrmem
            · exact h
          obtain ⟨p, hp⟩ := ih (r.pattern :: seen) ⟨r', hr'', by simp [hs]⟩
          exact ⟨p, by simp only [validateDup, hc]; simpa using hp⟩

theorem validateDup_error_of_dup (l : List SpaRouteConfig) :
    ∀ seen, ¬ (l.map (·.pattern)).Nodup →
      ∃ p, validateDup seen l = .error (duplicatePatternError p) := by
  induction l with
  | nil => intro seen h; exact absurd List.nodup_nil h
  | cons r rest ih =>
      intro seen hnd
      cases hc : seen.contains r.pattern with
      | true => exact ⟨r.pattern, by simp only [validateDup, hc]; simp⟩
      | false =>
          simp only [List.map_cons, List.nodup_cons, not_and_or] at hnd
          rcases hnd with h | h
          · push_neg at h
            obtain ⟨r', hr', hpat⟩ := List.mem_map.mp h
            obtain ⟨p, hp⟩ :=
              validateDup_error_of_seen rest (r.pattern :: seen) ⟨r', hr', by simp [hpat]⟩
            exact ⟨p, by simp only [validateDup, hc]; simpa using hp⟩
          · obtain ⟨p, hp⟩ := ih (r.pattern :: seen) h
            exact ⟨p, by simp only [validateDup, hc]; simpa using hp⟩

theorem compile_pattern_ok_of_ne {p : RStr} (h : p ≠ []) :
    ∃ m, compile_pattern p = .ok m := by
  have hne : p.isEmpty = false := by
    cases p with
    | nil => exact absurd rfl h
    | cons a t => rfl
  simp only [compile_pattern, hne, Bool.false_eq_true, if_false]
  by_cases hca : p == toRStr "/*"
  · exact ⟨.CatchAll, by simp [hca]⟩
  · have hca' : (p == toRStr "/*") = false := by
      cases hx : p == toRStr "/*"
      · rfl
      · exact absurd hx hca
    cases hs : stripSuffix p (toRStr "/*") with
    | some pre =>
        by_cases hpre : pre.isEmpty
        · exact ⟨.CatchAll, by simp [hca', hs, hpre]⟩
        · have hpre' : pre.isEmpty = false := by
            cases hx : pre.isEmpty
            · rfl
            · exact absurd hx hpre
          exact ⟨.Prefix pre, by simp [hca', hs, hpre']⟩
    | none => exact ⟨.Exact p, by simp [hca', hs]⟩

theorem compile_pattern_error_shape {p : RStr} {e : HError}
    (h : compile_pattern p = .error e) : p = [] ∧ e = emptyPatternError := by
  by_cases hp : p = []
  · refine ⟨hp, ?_⟩
    subst hp
    have := h
    simp only [compile_pattern, List.isEmpty_nil, if_true] at this
    exact (Except.error.inj this).symm
  · obtain ⟨m, hm⟩ := compile_pattern_ok_of_ne hp
    rw [hm] at h
    cases h

theorem compileEntries_ok_of (l : List (Nat × SpaRouteConfig))
    (h : ∀ x ∈ l, x.2.pattern ≠ []) : ∃ es, compileEntries l = .ok es := by
  induction l with
  | nil => exact ⟨[], rfl⟩
  | cons x rest ih =>
      obtain ⟨m, hm⟩ := compile_pattern_ok_of_ne (h x (by simp))
      obtain ⟨es, hes⟩ := ih (fun y hy => h y (by simp [hy]))
      exact ⟨{ matcher := m, config := x.2, priority := x.1 } :: es, by
        simp [compileEntries, hm, hes, except_bind_ok]⟩

theorem compileEntries_error_of (l : List (Nat × SpaRouteConfig))
    (h : ∃ x ∈ l, x.2.pattern = []) :
    compileEntries l = .error emptyPatternError := by
  induction l with
  | nil => obtain ⟨x, hx, -⟩ := h; exact absurd hx (by simp)
  | cons y rest ih =>
      obtain ⟨x, hx, hpat⟩ := h
      rcases List.mem_cons.mp hx with hxy | hxr
      · subst hxy
        have hcp : compile_pattern x.2.pattern = .error emptyPatternError := by
          simp [hpat, compile_pattern, toRStr]
        simp [compileEntries, hcp, except_bind_error]
      · cases hc : compile_pattern y.2.pattern with
        | error e =>
            obtain ⟨-, he⟩ := compile_pattern_error_shape hc
            subst he
            simp [compileEntries, hc, except_bind_error]
        | ok m =>
            have ht := ih ⟨x, hxr, hpat⟩
            simp [compileEntries, hc, ht, except_bind_ok, except_bind_error]

theorem compileEntries_shape (l : List (Nat × SpaRouteConfig)) :
    (∃ es, compileEntries l = .ok es) ∨ compileEntries l = .error emptyPatternError := by
  by_cases h : ∀ x ∈ l, x.2.pattern ≠ []
  · exact Or.inl (compileEntries_ok_of l h)
  · push_neg at h
    exact Or.inr (compileEntries_error_of l h)

/-! ## C3: construction rejects empty and duplicate patterns -/

/-- A route with the given pattern and typical remaining fields, for
concrete instantiations. -/
def mkRouteR (p : RStr) : SpaRouteConfig :=
  { pattern := p, embed_dir := toRStr "./dist",
    dev_proxy_url := toRStr "http://localhost:3000",
    dev_command := [toRStr "npm", toRStr "run", toRStr "dev"],
    working_dir := toRStr ".", fallback_file := some (toRStr "index.html"),
    open_browser := false }

/-- The route `mkRouteR` builds from a string literal pattern. -/
def mkRoute (p : String) : SpaRouteConfig := mkRouteR (toRStr p)

/-! ### Permutation facts about the stable sort -/

theorem stableInsert_perm (key : α → Nat) (x : α) (l : List α) :
    (stableInsert key x l).Perm (x :: l) := by
  induction l with
  | nil => exact List.Perm.refl _
  | cons y ys ih =>
      by_cases h : key y < key x
      · simp only [stableInsert, h, if_true]
        exact (ih.cons y).trans (List.Perm.swap x y ys)
      · simp only [stableInsert, h, if_false]
        exact List.Perm.refl _

theorem insertionSort_perm (key : α → Nat) (l : List α) :
    (insertionSort key l).Perm l := by
  induction l with
  | nil => exact List.Perm.refl _
  | cons x xs ih =>
      exact (stableInsert_perm key x (insertionSort key xs)).trans (ih.cons x)

theorem mem_enumFrom_of_mem {r : α} :
    ∀ (l : List α) (n : Nat), r ∈ l → ∃ i, (i, r) ∈ l.enumFrom n := by
  intro l
  induction l with
  | nil => intro n h; exact absurd h (by simp)
  | cons a t ih =>
      intro n h
      rcases List.mem_cons.mp h with h | h
      · subst h; exact ⟨n, by simp [List.enumFrom]⟩
      · obtain ⟨i, hi⟩ := ih (n + 1) h
        exact ⟨i, by simp [List.enumFrom, hi]⟩

theorem mem_enum_of_mem {r : α} {l : List α} (h : r ∈ l) : ∃ i, (i, r) ∈ l.enum :=
  mem_enumFrom_of_mem l 0 h

/-- C3 (confirmed): `Router::new` returns a `Config` error whenever some
route's pattern is the empty string or two routes share an identical
pattern string. -/
theorem construction_rejects (routes : List SpaRouteConfig) (mode : Mode)
    (h : (∃ r ∈ routes, r.pattern = []) ∨ ¬ (routes.map (·.pattern)).Nodup) :
    ∃ e, Router.new routes mode = .error e ∧ e.isConfig = true := by
  by_cases hdup : (routes.map (·.pattern)).Nodup
  · -- no duplicates: the empty pattern fails in `compile_pattern`
    have hempt : ∃ r ∈ routes, r.pattern = [] := by
      rcases h with h | h
      · exact h
      · exact absurd hdup h
    have hval : validate_routes routes = .ok () := by
      have h1 := validateDup_ok routes [] hdup (by simp)
      simp [validate_routes, h1, validateConflicts_ok, except_bind_ok]
    obtain ⟨r, hr, hpat⟩ := hempt
    obtain ⟨i, hi⟩ := mem_enum_of_mem hr
    have hsmem : (i, r) ∈ insertionSort entryKey routes.enum :=
      ((insertionSort_perm entryKey routes.enum).mem_iff).mpr hi
    have hce : compileEntries (insertionSort entryKey routes.enum) =
        .error emptyPatternError :=
      compileEntries_error_of _ ⟨(i, r), hsmem, hpat⟩
    refine ⟨emptyPatternError, ?_, rfl⟩
    simp [Router.new, hval, hce, except_bind_ok, except_bind_error]
  · obtain ⟨p, hp⟩ := validateDup_error_of_dup routes [] hdup
    refine ⟨duplicatePatternError p, ?_, rfl⟩
    simp [Router.new, validate_routes, hp, except_bind_error]

/-- Witness for `construction_rejects`: a route set containing the empty
pattern, and one containing two identical `/app/*` patterns, both fail
construction with a configuration error. -/
theorem construction_rejects_witness :
    (∃ e, Router.new [mkRoute ""] .Production = .error e ∧ e.isConfig = true) ∧
    (∃ e, Router.new [mkRoute "/app/*", mkRoute "/app/*"] .Production = .error e ∧
      e.isConfig = true) :=
  ⟨construction_rejects [mkRoute ""] .Production (by simp [mkRoute, mkRouteR, toRStr]),
   construction_rejects [mkRoute "/app/*", mkRoute "/app/*"] .Production
     (Or.inr (by simp [mkRoute, mkRouteR]))⟩

/-! ## C10: totality of construction under bounded prefixes -/

/-- Does the route's pattern keep `1000 - prefix.len()` from
underflowing (prefix of at most 1000 bytes, or not a prefix pattern)? -/
def prefixLenAtMost1000 (r : SpaRouteConfig) : Bool :=
  match stripSuffix r.pattern (toRStr "/*") with
  | some pre => byteLen pre ≤ 1000
  | none => true

/-- Does evaluating the priorities inside `Router::new` panic in a debug
build (some route's priority subtraction underflows)? -/
def routerNewPanicsInDebug (routes : List SpaRouteConfig) : Bool :=
  routes.any (fun r => route_priority_underflows r.pattern)

theorem any_eq_false_of {p : α → Bool} :
    ∀ l : List α, (∀ x ∈ l, p x = false) → l.any p = false := by
  intro l
  induction l with
  | nil => intro _; rfl
  | cons a t ih =>
      intro h
      simp only [List.any_cons, h a (by simp), Bool.false_or]
      exact ih fun x hx => h x (by simp [hx])

theorem underflow_false_of_le (r : SpaRouteConfig)
    (h : prefixLenAtMost1000 r = true) :
    route_priority_underflows r.pattern = false := by
  cases hca : (r.pattern == toRStr "/*") with
  | true => simp [route_priority_underflows, hca]
  | false =>
      simp only [route_priority_underflows, hca, Bool.false_eq_true, if_false]
      cases hs : stripSuffix r.pattern (toRStr "/*") with
      | none => rfl
      | some pre =>
          simp only [prefixLenAtMost1000, hs] at h
          simp only [decide_eq_true_eq] at h
          simp only [decide_eq_false_iff_not, not_lt]
          exact h

/-- C10 (confirmed): when every prefix pattern's prefix is at most 1000
bytes, the priority computation `1000 - prefix.len()` cannot underflow
(so `Router::new` cannot panic in a debug build), and construction
returns either a router or a configuration error. -/
theorem construction_total (routes : List SpaRouteConfig) (mode : Mode)
    (h : ∀ r ∈ routes, prefixLenAtMost1000 r = true) :
    routerNewPanicsInDebug routes = false ∧
    ((∃ router, Router.new routes mode = .ok router) ∨
      (∃ e, Router.new routes mode = .error e ∧ e.isConfig = true)) := by
  constructor
  · exact any_eq_false_of routes fun r hr => underflow_false_of_le r (h r hr)
  · rcases validateDup_shape routes [] with hv | ⟨p, hv⟩
    · rcases compileEntries_shape (insertionSort entryKey routes.enum) with ⟨es, hce⟩ | hce
      · refine Or.inl ⟨{ routes := es, mode := mode, pattern_cache := [] }, ?_⟩
        simp [Router.new, validate_routes, hv, validateConflicts_ok, hce, except_bind_ok]
      · refine Or.inr ⟨emptyPatternError, ?_, rfl⟩
        simp [Router.new, validate_routes, hv, validateConflicts_ok, hce,
          except_bind_ok, except_bind_error]
    · refine Or.inr ⟨duplicatePatternError p, ?_, rfl⟩
      simp [Router.new, validate_routes, hv, except_bind_error]

/-- Witness for `construction_total`: a typical two-route set has no
underflow and builds successfully. -/
theorem construction_total_witness :
    routerNewPanicsInDebug [mkRoute "/app/*", mkRoute "/*"] = false ∧
    ((∃ router, Router.new [mkRoute "/app/*", mkRoute "/*"] .Production = .ok router) ∨
      (∃ e, Router.new [mkRoute "/app/*", mkRoute "/*"] .Production = .error e ∧
        e.isConfig = true)) :=
  construction_total [mkRoute "/app/*", mkRoute "/*"] .Production (by decide)

/-! ## C8: resolution is idempotent -/

/-- Apply a sequence of resolutions, keeping the evolving cache. -/
def applyPaths (r : Router) (paths : List RStr) : Router :=
  paths.foldl (fun acc p => (acc.match_route p).2) r

/-- Every cache binding points at the index the specificity scan would
produce for that path.  Freshly built routers satisfy this (their cache
is empty) and `match_route` maintains it. -/
def cacheCoherent (r : Router) : Prop :=
  ∀ p i, lookupCache r.pattern_cache p = some i →
    ∃ e, scanRoutes p 0 r.routes = some (i, e)

theorem scanRoutes_get (path : RStr) :
    ∀ (l : List RouteEntry) (n i : Nat) (e : RouteEntry),
      scanRoutes path n l = some (i, e) →
      n ≤ i ∧ l.get? (i - n) = some e ∧ e.matcher.matches path = true := by
  intro l
  induction l with
  | nil => intro n i e h; cases h
  | cons a t ih =>
      intro n i e h
      cases hm : a.matcher.matches path with
      | true =>
          simp only [scanRoutes, hm, if_true] at h
          obtain ⟨hi, he⟩ : n = i ∧ a = e := by
            have := Option.some.inj h
            exact ⟨congrArg Prod.fst this, congrArg Prod.snd this⟩
          subst hi; subst he
          exact ⟨Nat.le_refl n, by simp, hm⟩
      | false =>
          simp only [scanRoutes, hm, Bool.false_eq_true, if_false] at h
          obtain ⟨h1, h2, h3⟩ := ih (n + 1) i e h
          refine ⟨by omega, ?_, h3⟩
          have hidx : i - n = (i - (n + 1)) + 1 := by omega
          rw [hidx]
          simpa using h2

theorem lookupCache_cons (p0 : RStr) (i0 : Nat) (rest : List (RStr × Nat)) (q : RStr) :
    lookupCache ((p0, i0) :: rest) q =
      if p0 == q then some i0 else lookupCache rest q := by
  cases h : p0 == q <;> simp [lookupCache, List.find?, h]

theorem match_route_routes_eq (r : Router) (path : RStr) :
    (r.match_route path).2.routes = r.routes := by
  unfold Router.match_route
  cases hl : lookupCache r.pattern_cache path with
  | some i => rfl
  | none =>
      cases hs : scanRoutes path 0 r.routes with
      | none => rfl
      | some ie => cases ie with | mk i e => rfl

theorem match_route_coherent {r : Router} (h : cacheCoherent r) (path : RStr) :
    cacheCoherent (r.match_route path).2 := by
  unfold Router.match_route
  cases hl : lookupCache r.pattern_cache path with
  | some i => exact h
  | none =>
      cases hs : scanRoutes path 0 r.routes with
      | none => exact h
      | some ie =>
          cases ie with
          | mk i e =>
              intro q j hq
              simp only at hq
              rw [lookupCache_cons] at hq
              cases hpq : (path == q) with
              | true =>
                  rw [hpq, if_pos rfl] at hq
                  have hq' : q = path := (beq_iff_eq.mp hpq).symm
                  subst hq'
                  have hij : i = j := Option.some.inj hq
                  subst hij
                  exact ⟨e, hs⟩
              | false =>
                  rw [hpq] at hq
                  simp only [Bool.false_eq_true, if_false] at hq
                  exact h q j hq

theorem match_route_idempotent (r : Router) (path : RStr) :
    ((r.match_route path).2.match_route path).1 = (r.match_route path).1 := by
  cases hl : lookupCache r.pattern_cache path with
  | some i =>
      have hstate : (r.match_route path).2 = r := by
        simp [Router.match_route, hl]
      rw [hstate]
  | none =>
      cases hs : scanRoutes path 0 r.routes with
      | none =>
          have hstate : (r.match_route path).2 = r := by
            simp [Router.match_route, hl, hs]
          rw [hstate]
      | some ie =>
          cases ie with
          | mk i e =>
              have hfst : (r.match_route path).1 = some e.config := by
                simp [Router.match_route, hl, hs]
              have hstate : (r.match_route path).2 =
                  { r with pattern_cache := (path, i) :: r.pattern_cache } := by
                simp [Router.match_route, hl, hs]
              obtain ⟨-, hget, -⟩ := scanRoutes_get path r.routes 0 i e hs
              simp only [Nat.sub_zero] at hget
              rw [hstate, hfst]
              have hl2 : lookupCache ((path, i) :: r.pattern_cache) path = some i := by
                rw [lookupCache_cons, if_pos (by simp)]
              simp only [Router.match_route, hl2]
              rw [hget]
              rfl

theorem match_route_eq_scan {r : Router} (h : cacheCoherent r) (path : RStr) :
    (r.match_route path).1 = (scanRoutes path 0 r.routes).map (fun ie => ie.2.config) := by
  cases hl : lookupCache r.pattern_cache path with
  | some i =>
      obtain ⟨e, hs⟩ := h path i hl
      obtain ⟨-, hget, -⟩ := scanRoutes_get path r.routes 0 i e hs
      simp only [Nat.sub_zero] at hget
      simp only [Router.match_route, hl, hs]
      rw [hget]
      rfl
  | none =>
      cases hs : scanRoutes path 0 r.routes with
      | none => simp [Router.match_route, hl, hs]
      | some ie =>
          cases ie with
          | mk i e => simp [Router.match_route, hl, hs]

theorem applyPaths_routes_eq :
    ∀ (paths : List RStr) (r : Router), (applyPaths r paths).routes = r.routes := by
  intro paths
  induction paths with
  | nil => intro r; rfl
  | cons p rest ih =>
      intro r
      calc (applyPaths (r.match_route p).2 rest).routes
          = (r.match_route p).2.routes := ih (r.match_route p).2
        _ = r.routes := match_route_routes_eq r p

theorem applyPaths_coherent :
    ∀ (paths : List RStr) (r : Router), cacheCoherent r →
      cacheCoherent (applyPaths r paths) := by
  intro paths
  induction paths with
  | nil => intro r h; exact h
  | cons p rest ih =>
      intro r h
      exact ih (r.match_route p).2 (match_route_coherent h p)

theorem new_cache_empty {routes : List SpaRouteConfig} {mode : Mode} {router : Router}
    (h : Router.new routes mode = .ok router) : router.pattern_cache = [] := by
  rcases validateDup_shape routes [] with hv | ⟨p, hv⟩
  · rcases compileEntries_shape (insertionSort entryKey routes.enum) with ⟨es, hce⟩ | hce
    · have : Router.new routes mode =
          .ok { routes := es, mode := mode, pattern_cache := [] } := by
        simp [Router.new, validate_routes, hv, validateConflicts_ok, hce, except_bind_ok]
      rw [this] at h
      have := Except.ok.inj h
      rw [← this]
    · have : Router.new routes mode = .error emptyPatternError := by
        simp [Router.new, validate_routes, hv, validateConflicts_ok, hce,
          except_bind_ok, except_bind_error]
      rw [this] at h
      cases h
  · have : Router.new routes mode = .error (duplicatePatternError p) := by
      simp [Router.new, validate_routes, hv, except_bind_error]
    rw [this] at h
    cases h

/-- C8 (confirmed): resolution is idempotent.  For a router built by
`Router::new` and warmed by any sequence of earlier resolutions, a
second resolution of the same path — answered from the cache entry the
first one inserted — returns the same route as the first, and every
resolution (cached or not) agrees with a fresh specificity-ordered
scan of the unchanged route table. -/
theorem resolve_idempotent (routes : List SpaRouteConfig) (mode : Mode)
    (paths : List RStr) (path : RStr) (router : Router)
    (h : Router.new routes mode = .ok router) :
    (((applyPaths router paths).match_route path).2.match_route path).1 =
      ((applyPaths router paths).match_route path).1 ∧
    ((applyPaths router paths).match_route path).1 =
      (scanRoutes path 0 router.routes).map (fun ie => ie.2.config) := by
  have h0 : cacheCoherent router := by
    intro p i hp
    rw [new_cache_empty h] at hp
    cases hp
  refine ⟨match_route_idempotent (applyPaths router paths) path, ?_⟩
  rw [match_route_eq_scan (applyPaths_coherent paths router h0) path,
    applyPaths_routes_eq paths router]

/-- The demonstration route set for the idempotence witness. -/
def demoRoutes8 : List SpaRouteConfig :=
  [mkRoute "/admin/*", mkRoute "/*"]

/-- The router built from `demoRoutes8` (construction succeeds, so the
fallback branch is irrelevant). -/
def demoRouter8 : Router :=
  match Router.new demoRoutes8 .Production with
  | .ok r => r
  | .error _ => { routes := [], mode := .Production, pattern_cache := [] }

/-- Witness for `resolve_idempotent`: two successive resolutions of
`/admin/x` on a concrete router agree, and match the fresh scan. -/
theorem resolve_idempotent_witness :
    ((demoRouter8.match_route (toRStr "/admin/x")).2.match_route (toRStr "/admin/x")).1 =
      (demoRouter8.match_route (toRStr "/admin/x")).1 ∧
    (demoRouter8.match_route (toRStr "/admin/x")).1 =
      (scanRoutes (toRStr "/admin/x") 0 demoRouter8.routes).map (fun ie => ie.2.config) := by
  have h := resolve_idempotent demoRoutes8 .Production [] (toRStr "/admin/x")
    demoRouter8 (by rfl)
  exact h

/-! ## C1: specificity ordering — sorting and stability infrastructure -/

/-- The specificity rank of a compiled route entry. -/
def entryRank (e : RouteEntry) : Nat := route_priority e.config.pattern

/-- The combined order a stable sort produces: strictly smaller key, or
equal keys in original (index) order. -/
def keyIdxLt (key pidx : α → Nat) (a b : α) : Prop :=
  key a < key b ∨ (key a = key b ∧ pidx a < pidx b)

theorem keyIdxLt_key_le {key pidx : α → Nat} {a b : α} (h : keyIdxLt key pidx a b) :
    key a ≤ key b := by
  rcases h with h | ⟨h, -⟩
  · exact Nat.le_of_lt h
  · exact Nat.le_of_eq h

theorem stableInsert_pairwise (key pidx : α → Nat) (x : α) (l : List α)
    (hl : l.Pairwise (keyIdxLt key pidx))
    (hx : ∀ y ∈ l, pidx x < pidx y) :
    (stableInsert key x l).Pairwise (keyIdxLt key pidx) := by
  induction l with
  | nil => simp [stableInsert]
  | cons y ys ih =>
      rcases List.pairwise_cons.mp hl with ⟨hy, hys⟩
      by_cases hk : key y < key x
      · simp only [stableInsert, hk, if_true]
        refine List.pairwise_cons.mpr ⟨?_, ih hys (fun z hz => hx z (by simp [hz]))⟩
        intro z hz
        rcases List.mem_cons.mp ((stableInsert_perm key x ys).mem_iff.mp hz) with rfl | hz'
        · exact Or.inl hk
        · exact hy z hz'
      · simp only [stableInsert, hk, if_false]
        refine List.pairwise_cons.mpr ⟨?_, hl⟩
        intro z hz
        have hxy : key x ≤ key y := Nat.le_of_not_lt hk
        rcases List.mem_cons.mp hz with rfl | hz'
        · rcases Nat.lt_or_ge (key x) (key z) with h | h
          · exact Or.inl h
          · exact Or.inr ⟨Nat.le_antisymm hxy h, hx z (by simp)⟩
        · have hyz : key y ≤ key z := keyIdxLt_key_le (hy z hz')
          rcases Nat.lt_or_ge (key x) (key z) with h | h
          · exact Or.inl h
          · exact Or.inr ⟨Nat.le_antisymm (Nat.le_trans hxy hyz) h, hx z (by simp [hz'])⟩

theorem insertionSort_pairwise (key pidx : α → Nat) (l : List α)
    (hl : l.Pairwise (fun a b => pidx a < pidx b)) :
    (insertionSort key l).Pairwise (keyIdxLt key pidx) := by
  induction l with
  | nil => simp [insertionSort]
  | cons x xs ih =>
      rcases List.pairwise_cons.mp hl with ⟨hx, hxs⟩
      refine stableInsert_pairwise key pidx x (insertionSort key xs) (ih hxs) ?_
      intro y hy
      exact hx y ((insertionSort_perm key xs).mem_iff.mp hy)

theorem enumFrom_pairwise_fst :
    ∀ (l : List α) (n : Nat),
      (l.enumFrom n).Pairwise (fun a b => a.1 < b.1) := by
  intro l
  induction l with
  | nil => intro n; simp
  | cons x xs ih =>
      intro n
      refine List.pairwise_cons.mpr ⟨?_, ih (n + 1)⟩
      intro y hy
      have := List.mem_enumFrom hy
      omega

/-! ### Relating compiled entries to the sorted pairs -/

/-- The relation `compileEntries` establishes between an input pair and
the entry built from it. -/
def entryOf (p : Nat × SpaRouteConfig) (e : RouteEntry) : Prop :=
  e.config = p.2 ∧ e.priority = p.1 ∧ compile_pattern p.2.pattern = .ok e.matcher

theorem compileEntries_forall2 :
    ∀ {l : List (Nat × SpaRouteConfig)} {es : List RouteEntry},
      compileEntries l = .ok es → List.Forall₂ entryOf l es := by
  intro l
  induction l with
  | nil =>
      intro es h
      have : es = [] := (Except.ok.inj h).symm
      subst this
      exact List.Forall₂.nil
  | cons x rest ih =>
      intro es h
      cases hc : compile_pattern x.2.pattern with
      | error e =>
          rw [show compileEntries (x :: rest) =
            (do
              let m ← compile_pattern x.2.pattern
              let tail ← compileEntries rest
              Except.ok ({ matcher := m, config := x.2, priority := x.1 } :: tail)) from rfl,
            hc] at h
          cases h
      | ok m =>
          cases hr : compileEntries rest with
          | error e =>
              rw [show compileEntries (x :: rest) =
                (do
                  let m ← compile_pattern x.2.pattern
                  let tail ← compileEntries rest
                  Except.ok ({ matcher := m, config := x.2, priority := x.1 } :: tail)) from rfl,
                hc, hr] at h
              cases h
          | ok tail =>
              rw [show compileEntries (x :: rest) =
                (do
                  let m ← compile_pattern x.2.pattern
                  let tail ← compileEntries rest
                  Except.ok ({ matcher := m, config := x.2, priority := x.1 } :: tail)) from rfl,
                hc, hr] at h
              have hes : es = { matcher := m, config := x.2, priority := x.1 } :: tail :=
                (Except.ok.inj h).symm
              subst hes
              exact List.Forall₂.cons ⟨rfl, rfl, hc⟩ (ih hr)

theorem forall2_mem_right {R : α → β → Prop} :
    ∀ {l : List α} {es : List β}, List.Forall₂ R l es → ∀ b ∈ es, ∃ a ∈ l, R a b := by
  intro l es h
  induction h with
  | nil => intro b hb; exact absurd hb (by simp)
  | cons hR _ ih =>
      intro b hb
      rcases List.mem_cons.mp hb with rfl | hb'
      · exact ⟨_, by simp, hR⟩
      · obtain ⟨a, ha, har⟩ := ih b hb'
        exact ⟨a, by simp [ha], har⟩

theorem forall2_mem_left {R : α → β → Prop} :
    ∀ {l : List α} {es : List β}, List.Forall₂ R l es → ∀ a ∈ l, ∃ b ∈ es, R a b := by
  intro l es h
  induction h with
  | nil => intro a ha; exact absurd ha (by simp)
  | cons hR _ ih =>
      intro a ha
      rcases List.mem_cons.mp ha with rfl | ha'
      · exact ⟨_, by simp, hR⟩
      · obtain ⟨b, hb, hbr⟩ := ih a ha'
        exact ⟨b, by simp [hb], hbr⟩

theorem forall2_pairwise {R : α → β → Prop} {S : α → α → Prop} {T : β → β → Prop} :
    ∀ {l : List α} {es : List β}, List.Forall₂ R l es → l.Pairwise S →
      (∀ a b a' b', R a a' → R b b' → S a b → T a' b') → es.Pairwise T := by
  intro l es h
  induction h with
  | nil => intro _ _; exact List.Pairwise.nil
  | cons hR hrest ih =>
      intro hS him
      rcases List.pairwise_cons.mp hS with ⟨hhead, htail⟩
      refine List.pairwise_cons.mpr ⟨?_, ih htail him⟩
      intro b' hb'
      obtain ⟨b, hb, hbr⟩ := forall2_mem_right hrest b' hb'
      exact him _ b _ b' hR hbr (hhead b hb)

theorem forall2_map_config :
    ∀ {l : List (Nat × SpaRouteConfig)} {es : List RouteEntry},
      List.Forall₂ entryOf l es → es.map (·.config) = l.map (·.2) := by
  intro l es h
  induction h with
  | nil => rfl
  | cons hR _ ih => simp [hR.1, ih]

/-! ### Rank characterization of compiled patterns -/

theorem compile_exact {p s : RStr} (h : compile_pattern p = .ok (.Exact s)) :
    s = p ∧ route_priority p = 0 := by
  cases hp : p.isEmpty with
  | true => simp [compile_pattern, hp] at h
  | false =>
      cases hca : (p == toRStr "/*") with
      | true => simp [compile_pattern, hp, hca] at h
      | false =>
          cases hs : stripSuffix p (toRStr "/*") with
          | some pre =>
              simp only [compile_pattern, hp, hca, hs, Bool.false_eq_true, if_false] at h
              by_cases hpre : pre.isEmpty <;> simp [hpre] at h
          | none =>
              simp only [compile_pattern, hp, hca, hs, Bool.false_eq_true, if_false] at h
              have hsp : p = s := by simpa using h
              exact ⟨hsp.symm, by simp [route_priority, hca, hs]⟩

theorem usize_large : 1000 < USIZE := by
  norm_num [USIZE]

theorem compile_catchall {p : RStr} (h : compile_pattern p = .ok .CatchAll) :
    route_priority p = 1000 := by
  cases hp : p.isEmpty with
  | true => simp [compile_pattern, hp] at h
  | false =>
      cases hca : (p == toRStr "/*") with
      | true => simp [route_priority, hca]
      | false =>
          cases hs : stripSuffix p (toRStr "/*") with
          | some pre =>
              simp only [compile_pattern, hp, hca, hs, Bool.false_eq_true, if_false] at h
              by_cases hpre : pre.isEmpty
              · have hpre' : pre = [] := by
                  cases pre with
                  | nil => rfl
                  | cons c t => simp at hpre
                simp only [route_priority, hca, Bool.false_eq_true, if_false, hs, hpre',
                  byteLen, List.map_nil, List.sum_nil, Nat.sub_zero]
                rw [Nat.add_mod_left]
                exact Nat.mod_eq_of_lt usize_large
              · simp [hpre] at h
          | none =>
              simp only [compile_pattern, hp, hca, hs, Bool.false_eq_true, if_false] at h
              cases h

theorem compile_prefix {p pre : RStr} (h : compile_pattern p = .ok (.Prefix pre)) :
    pre ≠ [] ∧ route_priority p = (USIZE + 1000 - byteLen pre) % USIZE := by
  cases hp : p.isEmpty with
  | true => simp [compile_pattern, hp] at h
  | false =>
      cases hca : (p == toRStr "/*") with
      | true => simp [compile_pattern, hp, hca] at h
      | false =>
          cases hs : stripSuffix p (toRStr "/*") with
          | some pre' =>
              simp only [compile_pattern, hp, hca, hs, Bool.false_eq_true, if_false] at h
              by_cases hpre : pre'.isEmpty
              · simp [hpre] at h
              · simp only [hpre, Bool.false_eq_true, if_false] at h
                have hpp : pre' = pre := by simpa using h
                subst hpp
                refine ⟨?_, by simp [route_priority, hca, hs]⟩
                intro hnil
                subst hnil
                simp at hpre
          | none =>
              simp only [compile_pattern, hp, hca, hs, Bool.false_eq_true, if_false] at h
              cases h

theorem priority_prefix_eval {b : Nat} (hb : b ≤ 1000) :
    (USIZE + 1000 - b) % USIZE = 1000 - b := by
  have h1 : USIZE + 1000 - b = USIZE + (1000 - b) := by omega
  rw [h1, Nat.add_mod_left]
  exact Nat.mod_eq_of_lt (by have := usize_large; omega)

/-! ### Scan facts -/

theorem scanRoutes_mem (path : RStr) :
    ∀ (l : List RouteEntry) (n i : Nat) (e : RouteEntry),
      scanRoutes path n l = some (i, e) → e ∈ l ∧ e.matcher.matches path = true := by
  intro l
  induction l with
  | nil => intro n i e h; cases h
  | cons a t ih =>
      intro n i e h
      cases hm : a.matcher.matches path with
      | true =>
          simp only [scanRoutes, hm, if_true] at h
          have he : a = e := congrArg Prod.snd (Option.some.inj h)
          subst he
          exact ⟨by simp, hm⟩
      | false =>
          simp only [scanRoutes, hm, Bool.false_eq_true, if_false] at h
          obtain ⟨h1, h2⟩ := ih (n + 1) i e h
          exact ⟨by simp [h1], h2⟩

theorem scanRoutes_exists (path : RStr) :
    ∀ (l : List RouteEntry), (∃ e ∈ l, e.matcher.matches path = true) →
      ∀ n, ∃ i e', scanRoutes path n l = some (i, e') := by
  intro l
  induction l with
  | nil => rintro ⟨e, he, -⟩ n; exact absurd he (by simp)
  | cons a t ih =>
      rintro ⟨e, he, hm⟩ n
      cases ha : a.matcher.matches path with
      | true => exact ⟨n, a, by simp [scanRoutes, ha]⟩
      | false =>
          have he' : e ∈ t := by
            rcases List.mem_cons.mp he with rfl | h
            · rw [ha] at hm; cases hm
            · exact h
          obtain ⟨i, e', hi⟩ := ih ⟨e, he', hm⟩ (n + 1)
          exact ⟨i, e', by simp [scanRoutes, ha, hi]⟩

theorem scanRoutes_min_rank (path : RStr) :
    ∀ (l : List RouteEntry), l.Pairwise (fun a b => entryRank a ≤ entryRank b) →
      ∀ n i e, scanRoutes path n l = some (i, e) →
        ∀ e' ∈ l, e'.matcher.matches path = true → entryRank e ≤ entryRank e' := by
  intro l
  induction l with
  | nil => intro _ n i e h; cases h
  | cons a t ih =>
      intro hs n i e h e' he' hm'
      rcases List.pairwise_cons.mp hs with ⟨ha, ht⟩
      cases hma : a.matcher.matches path with
      | true =>
          simp only [scanRoutes, hma, if_true] at h
          have hea : a = e := congrArg Prod.snd (Option.some.inj h)
          subst hea
          rcases List.mem_cons.mp he' with rfl | h'
          · exact Nat.le_refl _
          · exact ha e' h'
      | false =>
          simp only [scanRoutes, hma, Bool.false_eq_true, if_false] at h
          rcases List.mem_cons.mp he' with rfl | h'
          · rw [hma] at hm'; cases hm'
          · exact ih ht (n + 1) i e h e' h' hm'

/-! ### Route-level match classification -/

/-- The route's pattern compiles to an Exact matcher that matches. -/
def isExactMatch (r : SpaRouteConfig) (path : RStr) : Bool :=
  match compile_pattern r.pattern with
  | .ok (.Exact s) => (PathMatcher.Exact s).matches path
  | _ => false

/-- The route's pattern compiles to a Prefix matcher that matches. -/
def isPrefixMatch (r : SpaRouteConfig) (path : RStr) : Bool :=
  match compile_pattern r.pattern with
  | .ok (.Prefix pre) => (PathMatcher.Prefix pre).matches path
  | _ => false

/-- The route's pattern compiles to the CatchAll matcher. -/
def isCatchAllRoute (r : SpaRouteConfig) : Bool :=
  match compile_pattern r.pattern with
  | .ok .CatchAll => true
  | _ => false

/-- The byte length of the route's compiled prefix (0 otherwise). -/
def prefixMatchLen (r : SpaRouteConfig) : Nat :=
  match compile_pattern r.pattern with
  | .ok (.Prefix pre) => byteLen pre
  | _ => 0

/-- The route's compiled prefix, if any, is shorter than the constant
1000 of `route_priority`. -/
def prefixLenLt1000 (r : SpaRouteConfig) : Bool :=
  match compile_pattern r.pattern with
  | .ok (.Prefix pre) => byteLen pre < 1000
  | _ => true

theorem isExactMatch_iff {r : SpaRouteConfig} {path : RStr} :
    isExactMatch r path = true ↔
      ∃ s, compile_pattern r.pattern = .ok (.Exact s) ∧
        (PathMatcher.Exact s).matches path = true := by
  cases hc : compile_pattern r.pattern with
  | error e => simp [isExactMatch, hc]
  | ok m => cases m <;> simp [isExactMatch, hc]

theorem isPrefixMatch_iff {r : SpaRouteConfig} {path : RStr} :
    isPrefixMatch r path = true ↔
      ∃ pre, compile_pattern r.pattern = .ok (.Prefix pre) ∧
        (PathMatcher.Prefix pre).matches path = true := by
  cases hc : compile_pattern r.pattern with
  | error e => simp [isPrefixMatch, hc]
  | ok m => cases m <;> simp [isPrefixMatch, hc]

theorem isCatchAllRoute_iff {r : SpaRouteConfig} :
    isCatchAllRoute r = true ↔ compile_pattern r.pattern = .ok .CatchAll := by
  cases hc : compile_pattern r.pattern with
  | error e => simp [isCatchAllRoute, hc]
  | ok m => cases m <;> simp [isCatchAllRoute, hc]

theorem prefixMatchLen_eq {r : SpaRouteConfig} {pre : RStr}
    (h : compile_pattern r.pattern = .ok (.Prefix pre)) :
    prefixMatchLen r = byteLen pre := by
  simp [prefixMatchLen, h]

theorem new_ok_entries {routes : List SpaRouteConfig} {mode : Mode} {router : Router}
    (h : Router.new routes mode = .ok router) :
    compileEntries (insertionSort entryKey routes.enum) = .ok router.routes := by
  rcases validateDup_shape routes [] with hv | ⟨p, hv⟩
  · rcases compileEntries_shape (insertionSort entryKey routes.enum) with ⟨es, hce⟩ | hce
    · have hnew : Router.new routes mode =
          .ok { routes := es, mode := mode, pattern_cache := [] } := by
        simp [Router.new, validate_routes, hv, validateConflicts_ok, hce, except_bind_ok]
      rw [hnew] at h
      have hr := Except.ok.inj h
      rw [← hr]
      exact hce
    · have hnew : Router.new routes mode = .error emptyPatternError := by
        simp [Router.new, validate_routes, hv, validateConflicts_ok, hce,
          except_bind_ok, except_bind_error]
      rw [hnew] at h
      cases h
  · have hnew : Router.new routes mode = .error (duplicatePatternError p) := by
      simp [Router.new, validate_routes, hv, except_bind_error]
    rw [hnew] at h
    cases h

/-- C1 (amended): for route sets with pairwise-distinct, non-empty
patterns *whose prefix patterns all have prefixes shorter than 1000
bytes* (the constant K of `route_priority`), construction succeeds; the
entries are a permutation of the routes sorted by specificity rank with
stability (equal ranks keep declaration order, recorded in the
`priority` field); and resolution prefers an Exact-matching route over
any Prefix-matching route, any Prefix-matching route over CatchAll, and
among Prefix-matching routes one of maximal prefix length — regardless
of declaration order.  (Without the byte-length bound the rank formula
`1000 - len` ties Prefix ranks with the Exact rank 0 or wraps past the
CatchAll rank, and the preference fails.) -/
theorem router_specificity (routes : List SpaRouteConfig) (mode : Mode) (path : RStr)
    (hnodup : (routes.map (·.pattern)).Nodup)
    (hne : ∀ r ∈ routes, r.pattern ≠ [])
    (hlen : ∀ r ∈ routes, prefixLenLt1000 r = true) :
    ∃ router, Router.new routes mode = .ok router ∧
      (router.routes.map (·.config)).Perm routes ∧
      router.routes.Pairwise (fun a b => entryRank a < entryRank b ∨
        (entryRank a = entryRank b ∧ a.priority < b.priority)) ∧
      ((∃ r ∈ routes, isExactMatch r path = true) →
        ∃ c, (router.match_route path).1 = some c ∧ isExactMatch c path = true) ∧
      ((¬ ∃ r ∈ routes, isExactMatch r path = true) →
        (∃ r ∈ routes, isPrefixMatch r path = true) →
        ∃ c, (router.match_route path).1 = some c ∧ isPrefixMatch c path = true ∧
          ∀ r' ∈ routes, isPrefixMatch r' path = true →
            prefixMatchLen r' ≤ prefixMatchLen c) ∧
      ((¬ ∃ r ∈ routes, isExactMatch r path = true) →
        (¬ ∃ r ∈ routes, isPrefixMatch r path = true) →
        (∃ r ∈ routes, isCatchAllRoute r = true) →
        ∃ c, (router.match_route path).1 = some c ∧ isCatchAllRoute c = true) := by
  have hval : validate_routes routes = .ok () := by
    have h1 := validateDup_ok routes [] hnodup (by simp)
    simp [validate_routes, h1, validateConflicts_ok, except_bind_ok]
  have hsne : ∀ x ∈ insertionSort entryKey routes.enum, x.2.pattern ≠ [] := by
    intro x hx
    have hx' : x ∈ routes.enum :=
      (insertionSort_perm entryKey routes.enum).mem_iff.mp hx
    have hx2 : x.2 ∈ routes := by
      have := List.mem_map_of_mem Prod.snd hx'
      rwa [List.enum_map_snd] at this
    exact hne x.2 hx2
  obtain ⟨es, hce⟩ := compileEntries_ok_of (insertionSort entryKey routes.enum) hsne
  have hf2 := compileEntries_forall2 hce
  -- soundness of the entries
  have hentry_wf : ∀ e ∈ es, e.config ∈ routes ∧
      compile_pattern e.config.pattern = .ok e.matcher := by
    intro e he
    obtain ⟨p, hp, hpe⟩ := forall2_mem_right hf2 e he
    have hp' : p ∈ routes.enum :=
      (insertionSort_perm entryKey routes.enum).mem_iff.mp hp
    have hmem : p.2 ∈ routes := by
      have := List.mem_map_of_mem Prod.snd hp'
      rwa [List.enum_map_snd] at this
    refine ⟨hpe.1 ▸ hmem, ?_⟩
    rw [hpe.1]
    exact hpe.2.2
  have hroute_entry : ∀ r ∈ routes, ∀ m, compile_pattern r.pattern = .ok m →
      ∃ e ∈ es, e.config = r ∧ e.matcher = m := by
    intro r hr m hm
    obtain ⟨i, hi⟩ := mem_enum_of_mem hr
    have hsm : (i, r) ∈ insertionSort entryKey routes.enum :=
      (insertionSort_perm entryKey routes.enum).mem_iff.mpr hi
    obtain ⟨e, he, hoe⟩ := forall2_mem_left hf2 (i, r) hsm
    have hem : e.matcher = m := by
      have hcc := hoe.2.2
      rw [hm] at hcc
      exact (Except.ok.inj hcc).symm
    exact ⟨e, he, hoe.1, hem⟩
  -- ordering of the entries
  have hpair : es.Pairwise (fun a b => entryRank a < entryRank b ∨
      (entryRank a = entryRank b ∧ a.priority < b.priority)) := by
    have henum : routes.enum.Pairwise (fun a b => a.1 < b.1) :=
      enumFrom_pairwise_fst routes 0
    have hsortpair := insertionSort_pairwise entryKey Prod.fst routes.enum henum
    refine forall2_pairwise hf2 hsortpair ?_
    intro a b a' b' ha hb hs
    have hra : entryRank a' = entryKey a := by simp [entryRank, entryKey, ha.1]
    have hrb : entryRank b' = entryKey b := by simp [entryRank, entryKey, hb.1]
    have hpa : a'.priority = a.1 := ha.2.1
    have hpb : b'.priority = b.1 := hb.2.1
    rcases hs with h | ⟨h1, h2⟩
    · exact Or.inl (by rw [hra, hrb]; exact h)
    · exact Or.inr ⟨by rw [hra, hrb]; exact h1, by rw [hpa, hpb]; exact h2⟩
  have hrankle : es.Pairwise (fun a b => entryRank a ≤ entryRank b) := by
    refine hpair.imp ?_
    rintro a b (h | ⟨h, -⟩)
    · exact Nat.le_of_lt h
    · exact Nat.le_of_eq h
  -- rank characterization under the length bound
  have hrank_exact : ∀ e ∈ es, ∀ s, e.matcher = .Exact s → entryRank e = 0 := by
    intro e he s hs
    obtain ⟨-, hcw⟩ := hentry_wf e he
    rw [hs] at hcw
    exact (compile_exact hcw).2
  have hrank_prefix : ∀ e ∈ es, ∀ pre, e.matcher = .Prefix pre →
      entryRank e = 1000 - byteLen pre ∧ 1 ≤ entryRank e ∧ entryRank e ≤ 999 ∧
      1 ≤ byteLen pre ∧ byteLen pre < 1000 := by
    intro e he pre hpm
    obtain ⟨hmem, hcw⟩ := hentry_wf e he
    rw [hpm] at hcw
    obtain ⟨hpre_ne, hpri⟩ := compile_prefix hcw
    have hlt : byteLen pre < 1000 := by
      have hl := hlen e.config hmem
      simp only [prefixLenLt1000, hcw, decide_eq_true_eq] at hl
      exact hl
    have hge1 : 1 ≤ byteLen pre := by
      rcases Nat.eq_zero_or_pos (byteLen pre) with h0 | h
      · exact absurd (byteLen_eq_zero.mp h0) hpre_ne
      · exact h
    have heval : entryRank e = 1000 - byteLen pre := by
      show route_priority e.config.pattern = _
      rw [hpri]
      exact priority_prefix_eval (Nat.le_of_lt hlt)
    exact ⟨heval, by omega, by omega, hge1, hlt⟩
  have hrank_catchall : ∀ e ∈ es, e.matcher = .CatchAll → entryRank e = 1000 := by
    intro e he hc
    obtain ⟨-, hcw⟩ := hentry_wf e he
    rw [hc] at hcw
    exact compile_catchall hcw
  -- construction succeeds
  have hnew : Router.new routes mode =
      .ok { routes := es, mode := mode, pattern_cache := [] } := by
    simp [Router.new, hval, hce, except_bind_ok]
  -- the result of a resolution on the fresh router is the scan result
  have hres_of_scan : ∀ i f, scanRoutes path 0 es = some (i, f) →
      (({ routes := es, mode := mode, pattern_cache := [] } : Router).match_route path).1 =
        some f.config := by
    intro i f hscan
    simp [Router.match_route, lookupCache, hscan]
  refine ⟨{ routes := es, mode := mode, pattern_cache := [] }, hnew, ?_, hpair, ?_, ?_, ?_⟩
  · -- permutation with the declared routes
    have hmapeq := forall2_map_config hf2
    have hperm : ((insertionSort entryKey routes.enum).map Prod.snd).Perm
        (routes.enum.map Prod.snd) :=
      (insertionSort_perm entryKey routes.enum).map Prod.snd
    rw [List.enum_map_snd] at hperm
    show (es.map (fun e => e.config)).Perm routes
    rw [hmapeq]
    exact hperm
  · -- Exact beats everything
    rintro ⟨r, hr, hx⟩
    obtain ⟨s, hcomp, hmatch⟩ := isExactMatch_iff.mp hx
    obtain ⟨er, her, herc, herm⟩ := hroute_entry r hr (.Exact s) hcomp
    have hermatch : er.matcher.matches path = true := by rw [herm]; exact hmatch
    obtain ⟨i, f, hscan⟩ := scanRoutes_exists path es ⟨er, her, hermatch⟩ 0
    obtain ⟨hf_mem, hf_match⟩ := scanRoutes_mem path es 0 i f hscan
    have hmin := scanRoutes_min_rank path es hrankle 0 i f hscan er her hermatch
    have hrer : entryRank er = 0 := hrank_exact er her s herm
    have hrf : entryRank f = 0 := by omega
    obtain ⟨hf_routes, hf_comp⟩ := hentry_wf f hf_mem
    cases hfm : f.matcher with
    | Exact sf =>
        refine ⟨f.config, hres_of_scan i f hscan, ?_⟩
        refine isExactMatch_iff.mpr ⟨sf, by rw [← hfm]; exact hf_comp, ?_⟩
        rw [← hfm]
        exact hf_match
    | Prefix pref =>
        obtain ⟨-, h1, -, -, -⟩ := hrank_prefix f hf_mem pref hfm
        omega
    | CatchAll =>
        have := hrank_catchall f hf_mem hfm
        omega
  · -- Prefix beats CatchAll, longest prefix wins
    rintro hnex ⟨r, hr, hx⟩
    obtain ⟨pre, hcomp, hmatch⟩ := isPrefixMatch_iff.mp hx
    obtain ⟨ep, hep, hepc, hepm⟩ := hroute_entry r hr (.Prefix pre) hcomp
    have hepmatch : ep.matcher.matches path = true := by rw [hepm]; exact hmatch
    obtain ⟨i, f, hscan⟩ := scanRoutes_exists path es ⟨ep, hep, hepmatch⟩ 0
    obtain ⟨hf_mem, hf_match⟩ := scanRoutes_mem path es 0 i f hscan
    have hmin := scanRoutes_min_rank path es hrankle 0 i f hscan ep hep hepmatch
    obtain ⟨-, -, hep999, -, -⟩ := hrank_prefix ep hep pre hepm
    obtain ⟨hf_routes, hf_comp⟩ := hentry_wf f hf_mem
    cases hfm : f.matcher with
    | Exact sf =>
        exfalso
        refine hnex ⟨f.config, hf_routes, ?_⟩
        refine isExactMatch_iff.mpr ⟨sf, by rw [← hfm]; exact hf_comp, ?_⟩
        rw [← hfm]
        exact hf_match
    | CatchAll =>
        exfalso
        have := hrank_catchall f hf_mem hfm
        omega
    | Prefix pref =>
        have hfcomp' : compile_pattern f.config.pattern = .ok (.Prefix pref) := by
          rw [← hfm]; exact hf_comp
        refine ⟨f.config, hres_of_scan i f hscan, ?_, ?_⟩
        · refine isPrefixMatch_iff.mpr ⟨pref, hfcomp', ?_⟩
          rw [← hfm]
          exact hf_match
        · intro r' hr' hpm'
          obtain ⟨pre', hcomp', hmatch'⟩ := isPrefixMatch_iff.mp hpm'
          obtain ⟨e', he', hec', hem'⟩ := hroute_entry r' hr' (.Prefix pre') hcomp'
          have he'match : e'.matcher.matches path = true := by rw [hem']; exact hmatch'
          have hmin' := scanRoutes_min_rank path es hrankle 0 i f hscan e' he' he'match
          obtain ⟨heq', -, -, hge1', hlt'⟩ := hrank_prefix e' he' pre' hem'
          obtain ⟨heqf, -, -, hge1f, hltf⟩ := hrank_prefix f hf_mem pref hfm
          rw [prefixMatchLen_eq hcomp', prefixMatchLen_eq hfcomp']
          omega
  · -- CatchAll as a last resort
    rintro hnex hnpre ⟨r, hr, hx⟩
    have hcomp := isCatchAllRoute_iff.mp hx
    obtain ⟨ec, hec, hecc, hecm⟩ := hroute_entry r hr .CatchAll hcomp
    have hecmatch : ec.matcher.matches path = true := by
      rw [hecm]; rfl
    obtain ⟨i, f, hscan⟩ := scanRoutes_exists path es ⟨ec, hec, hecmatch⟩ 0
    obtain ⟨hf_mem, hf_match⟩ := scanRoutes_mem path es 0 i f hscan
    obtain ⟨hf_routes, hf_comp⟩ := hentry_wf f hf_mem
    cases hfm : f.matcher with
    | Exact sf =>
        exfalso
        refine hnex ⟨f.config, hf_routes, ?_⟩
        refine isExactMatch_iff.mpr ⟨sf, by rw [← hfm]; exact hf_comp, ?_⟩
        rw [← hfm]
        exact hf_match
    | Prefix pref =>
        exfalso
        refine hnpre ⟨f.config, hf_routes, ?_⟩
        refine isPrefixMatch_iff.mpr ⟨pref, by rw [← hfm]; exact hf_comp, ?_⟩
        rw [← hfm]
        exact hf_match
    | CatchAll =>
        refine ⟨f.config, hres_of_scan i f hscan, ?_⟩
        exact isCatchAllRoute_iff.mpr (by rw [← hfm]; exact hf_comp)

/-- Witness for `router_specificity`: with the catch-all declared first,
`/admin/users` still resolves to the Exact route. -/
theorem router_specificity_witness :
    ∃ router, Router.new [mkRoute "/*", mkRoute "/admin/*", mkRoute "/admin/users"]
        Mode.Production = .ok router ∧
      ∃ c, (router.match_route (toRStr "/admin/users")).1 = some c ∧
        isExactMatch c (toRStr "/admin/users") = true := by
  obtain ⟨router, hnew, -, -, hex, -, -⟩ :=
    router_specificity [mkRoute "/*", mkRoute "/admin/*", mkRoute "/admin/users"]
      .Production (toRStr "/admin/users") (by decide) (by decide) (by decide)
  exact ⟨router, hnew, hex (by decide)⟩

/-- A prefix of exactly 1000 bytes: its rank `1000 - 1000 = 0` ties the
Exact rank. -/
def c1LongA : RStr := List.replicate 1000 'a'

/-- Two distinct non-empty patterns: the 1000-byte prefix pattern
(declared first) and the same string as an exact pattern. -/
def c1CexRoutes : List SpaRouteConfig :=
  [mkRouteR (c1LongA ++ toRStr "/*"), mkRouteR c1LongA]

set_option maxRecDepth 100000 in
/-- C1 counterexample: on a route set with pairwise-distinct, non-empty
patterns, resolution returns the Prefix-matching route even though an
Exact-matching route exists — the 1000-byte prefix gets rank
`1000 - 1000 = 0`, tying Exact's rank 0, and the stable sort then keeps
the first-declared Prefix route ahead. -/
theorem router_specificity_cex :
    (Router.new c1CexRoutes Mode.Production).map
        (fun router => (router.match_route c1LongA).1) =
      .ok (some (mkRouteR (c1LongA ++ toRStr "/*"))) ∧
    isExactMatch (mkRouteR c1LongA) c1LongA = true ∧
    isPrefixMatch (mkRouteR (c1LongA ++ toRStr "/*")) c1LongA = true ∧
    mkRouteR (c1LongA ++ toRStr "/*") ≠ mkRouteR c1LongA ∧
    (c1CexRoutes.map (·.pattern)).Nodup ∧
    (∀ r ∈ c1CexRoutes, r.pattern ≠ []) := by
  refine ⟨by decide, by decide, by decide, by decide, by decide, by decide⟩

end Heisenberg
